import Mathlib

/-!
Verification development for the toolbelt component host runtime.

The development shallowly embeds the Rust sources (`registry.rs`,
`runtime.rs`, `composer.rs`, `wit.rs`) in Lean: JSON values and WIT
runtime types/values are inductive types, the marshaling functions are
recursive Lean functions translated arm by arm from the source, and the
effectful parts of the registry builder (file reads, binary parsing and
binary composition, all delegated by the source to external crates) are
abstracted into an explicit `World` record of oracles, so that every
registry-level function is a pure function of the world and its inputs.

Modelling conventions, applied throughout:
* machine integers are `Nat`/`Int` with explicit truncation helpers
  mirroring Rust `as` casts;
* `serde_json` maps and Rust `HashMap`s are association lists; keyed
  insertion replaces in place (the insertion-order-preserving map
  semantics that the spec's "declaration order" wording requires);
* JSON numbers are modelled as integers (floating-point numbers are out
  of scope of every claim settled here);
* `println!`/`eprintln!` logging is dropped; `unreachable!` panics in
  arms the source considers impossible are modelled as explicit error or
  null results, each noted at the definition.
-/

namespace Toolbelt

/-- Modelled from the spec: JSON values as `serde_json::Value` stores them,
except that numbers are integers only (float shapes are out of scope) and
objects are insertion-ordered association lists (the spec's positional
"declaration order" reading of schema property maps; the repository's
Cargo manifest, which fixes the `serde_json` map ordering feature, is not
among the staged files). -/
inductive Json where
  | null : Json
  | bool (b : Bool) : Json
  | num (n : Int) : Json
  | str (s : String) : Json
  | arr (xs : List Json) : Json
  | obj (kvs : List (String × Json)) : Json
deriving Repr

/-- First-match association-list lookup, as `serde_json::Map::get`. -/
def lookupAssoc {α : Type} (kvs : List (String × α)) (k : String) : Option α :=
  match kvs with
  | [] => none
  | (k0, v0) :: rest => if k0 == k then some v0 else lookupAssoc rest k

/-- Keyed insertion that replaces in place or appends, as insertion into an
insertion-order-preserving JSON map (`Map::insert`). -/
def insertAssoc {α : Type} (kvs : List (String × α)) (k : String) (v : α) :
    List (String × α) :=
  match kvs with
  | [] => [(k, v)]
  | (k0, v0) :: rest =>
    if k0 == k then (k0, v) :: rest else (k0, v0) :: insertAssoc rest k v

/-- Folding a pair list into a JSON map by repeated insertion, as the source
builds `serde_json::Map`s with an insert loop. -/
def objOfPairs (ps : List (String × Json)) : List (String × Json) :=
  ps.foldl (fun acc p => insertAssoc acc p.1 p.2) []

/-- The `as_u64` accessor of `serde_json::Number` on an integer-valued
number: defined exactly when the value fits `u64`. -/
def jsonAsU64 (n : Int) : Option Nat :=
  if 0 ≤ n ∧ n < 2 ^ 64 then some n.toNat else none

/-- The `as_i64` accessor of `serde_json::Number` on an integer-valued
number: defined exactly when the value fits `i64`. -/
def jsonAsI64 (n : Int) : Option Int :=
  if -(2 ^ 63) ≤ n ∧ n < 2 ^ 63 then some n else none

/-- Rust `as i8` truncation of an `i64` value: the value modulo `2^8`,
reinterpreted as a signed byte. -/
def toI8 (n : Int) : Int :=
  let r := n % 256
  if r < 128 then r else r - 256

/-- Rust `as i16` truncation of an `i64` value. -/
def toI16 (n : Int) : Int :=
  let r := n % 65536
  if r < 32768 then r else r - 65536

/-- Rust `as i32` truncation of an `i64` value. -/
def toI32 (n : Int) : Int :=
  let r := n % 4294967296
  if r < 2147483648 then r else r - 4294967296

/-- The WIT runtime types of `wasmtime::component::Type` that
`json_to_val` dispatches on, with the type-graph indirections of the
engine flattened into a tree. `own`/`borrow` are the resource handle
types. -/
inductive Ty where
  | bool : Ty
  | u8 : Ty
  | u16 : Ty
  | u32 : Ty
  | u64 : Ty
  | s8 : Ty
  | s16 : Ty
  | s32 : Ty
  | s64 : Ty
  | float32 : Ty
  | float64 : Ty
  | char : Ty
  | string : Ty
  | list (t : Ty) : Ty
  | record (fields : List (String × Ty)) : Ty
  | tuple (ts : List Ty) : Ty
  | variant (cases : List (String × Option Ty)) : Ty
  | enum (cases : List String) : Ty
  | option (t : Ty) : Ty
  | result (ok : Option Ty) (err : Option Ty) : Ty
  | flags (names : List String) : Ty
  | own : Ty
  | borrow : Ty
deriving Repr

/-- The WIT runtime values of `wasmtime::component::Val`. Unsigned carriers
are `Nat`, signed are `Int`; the float carriers hold the integer the value
was marshaled from (float arithmetic is out of scope of every claim). The
`Result` payload is split into an `ok` and an `err` constructor. -/
inductive Val where
  | bool (b : Bool) : Val
  | u8 (n : Nat) : Val
  | u16 (n : Nat) : Val
  | u32 (n : Nat) : Val
  | u64 (n : Nat) : Val
  | s8 (n : Int) : Val
  | s16 (n : Int) : Val
  | s32 (n : Int) : Val
  | s64 (n : Int) : Val
  | float32 (n : Int) : Val
  | float64 (n : Int) : Val
  | char (c : Char) : Val
  | string (s : String) : Val
  | list (xs : List Val) : Val
  | record (fields : List (String × Val)) : Val
  | tuple (xs : List Val) : Val
  | variant (name : String) (v : Option Val) : Val
  | enum (name : String) : Val
  | option (v : Option Val) : Val
  | resultOk (v : Option Val) : Val
  | resultErr (v : Option Val) : Val
  | flags (names : List String) : Val
  | resource : Val
deriving Repr

/-- The first key of a JSON object that is not a field of the WIT record:
the extra-field loop of the record arm of `json_to_val`. -/
def firstUnexpectedKey (kvs : List (String × Json)) (fields : List (String × Ty)) :
    Option String :=
  match kvs with
  | [] => none
  | (k, _) :: rest =>
    if fields.any (fun f => f.1 == k) then firstUnexpectedKey rest fields
    else some k

mutual

/-- Translation of `json_to_val` from `runtime.rs` (the version in
`components.rs` differs only in the record arm, which there rejects every
missing field): type-directed marshaling of a JSON value into a WIT
runtime value. Numeric arms read the number through `as_u64`/`as_i64` and
then truncate with an `as` cast to the target width; the final arm is the
catch-all type-mismatch error (its message drops the Rust `{:?}` debug
renderings of the two operands). -/
def json_to_val (j : Json) (t : Ty) : Except String Val :=
  match j, t with
  | .bool b, .bool => .ok (.bool b)
  | .str s, .string => .ok (.string s)
  | .str s, .char =>
    match s.toList with
    | [c] => .ok (.char c)
    | _ => .error s!"Expected single character, got: {s}"
  | .num n, .u8 =>
    match jsonAsU64 n with
    | some m => .ok (.u8 (m % 256))
    | none => .error s!"Invalid number for u8: {n}"
  | .num n, .u16 =>
    match jsonAsU64 n with
    | some m => .ok (.u16 (m % 65536))
    | none => .error s!"Invalid number for u16: {n}"
  | .num n, .u32 =>
    match jsonAsU64 n with
    | some m => .ok (.u32 (m % 4294967296))
    | none => .error s!"Invalid number for u32: {n}"
  | .num n, .u64 =>
    match jsonAsU64 n with
    | some m => .ok (.u64 m)
    | none => .error s!"Invalid number for u64: {n}"
  | .num n, .s8 =>
    match jsonAsI64 n with
    | some m => .ok (.s8 (toI8 m))
    | none => .error s!"Invalid number for s8: {n}"
  | .num n, .s16 =>
    match jsonAsI64 n with
    | some m => .ok (.s16 (toI16 m))
    | none => .error s!"Invalid number for s16: {n}"
  | .num n, .s32 =>
    match jsonAsI64 n with
    | some m => .ok (.s32 (toI32 m))
    | none => .error s!"Invalid number for s32: {n}"
  | .num n, .s64 =>
    match jsonAsI64 n with
    | some m => .ok (.s64 m)
    | none => .error s!"Invalid number for s64: {n}"
  | .num n, .float32 => .ok (.float32 n)
  | .num n, .float64 => .ok (.float64 n)
  | .arr xs, .list t =>
    match jsonListToVals xs t 0 with
    | .ok vs => .ok (.list vs)
    | .error e => .error e
  | .arr xs, .tuple ts =>
    if xs.length ≠ ts.length then
      let p := ts.length
      let a := xs.length
      .error s!"Tuple length mismatch: expected {p}, got {a}"
    else
      match jsonTupleToVals xs ts 0 with
      | .ok vs => .ok (.tuple vs)
      | .error e => .error e
  | .obj kvs, .record fields =>
    match jsonRecordToVals kvs fields with
    | .error e => .error e
    | .ok fs =>
      match firstUnexpectedKey kvs fields with
      | some k => .error s!"Unexpected field '{k}' in record"
      | none => .ok (.record fs)
  | .null, .option _ => .ok (.option none)
  | j, .option t =>
    match json_to_val j t with
    | .ok v => .ok (.option (some v))
    | .error e => .error e
  | _, _ => .error "Type mismatch: cannot convert JSON value to WIT type"
termination_by sizeOf j + sizeOf t
decreasing_by
  all_goals simp_wf
  all_goals omega

/-- The list arm's element loop of `json_to_val`, with the running index
used in its error message. -/
def jsonListToVals (xs : List Json) (t : Ty) (i : Nat) :
    Except String (List Val) :=
  match xs with
  | [] => .ok []
  | x :: rest =>
    match json_to_val x t with
    | .error e => .error s!"Error converting list item at index {i}: {e}"
    | .ok v =>
      match jsonListToVals rest t (i + 1) with
      | .ok vs => .ok (v :: vs)
      | .error e => .error e
termination_by sizeOf xs + sizeOf t
decreasing_by
  all_goals simp_wf
  all_goals omega

/-- The tuple arm's element loop of `json_to_val` (lengths are checked by
the caller before the loop runs, as in the source). -/
def jsonTupleToVals (xs : List Json) (ts : List Ty) (i : Nat) :
    Except String (List Val) :=
  match xs, ts with
  | [], _ => .ok []
  | _, [] => .ok []
  | x :: xr, t :: tr =>
    match json_to_val x t with
    | .error e => .error s!"Error converting tuple item at index {i}: {e}"
    | .ok v =>
      match jsonTupleToVals xr tr (i + 1) with
      | .ok vs => .ok (v :: vs)
      | .error e => .error e
termination_by sizeOf xs + sizeOf ts
decreasing_by
  all_goals simp_wf
  all_goals omega

/-- The record arm's field loop of `json_to_val` (`runtime.rs` version): a
missing field of option type defaults to an absent option, any other
missing field is an error. -/
def jsonRecordToVals (kvs : List (String × Json)) (fields : List (String × Ty)) :
    Except String (List (String × Val)) :=
  match fields with
  | [] => .ok []
  | (fname, fty) :: rest =>
    match hjv : lookupAssoc kvs fname with
    | some jv =>
      match json_to_val jv fty with
      | .error e => .error e
      | .ok v =>
        match jsonRecordToVals kvs rest with
        | .ok fs => .ok ((fname, v) :: fs)
        | .error e => .error e
    | none =>
      match fty with
      | .option _ =>
        match jsonRecordToVals kvs rest with
        | .ok fs => .ok ((fname, .option none) :: fs)
        | .error e => .error e
      | _ => .error s!"Missing required field '{fname}' in record"
termination_by sizeOf kvs + sizeOf fields
decreasing_by
  all_goals simp_wf
  all_goals first
  | omega
  | (have hlt : sizeOf jv < sizeOf kvs := by
      clear * - hjv
      induction kvs with
      | nil => simp [lookupAssoc] at hjv
      | cons hd tl ih =>
        rw [lookupAssoc] at hjv
        by_cases hk : hd.1 == fname
        · simp only [hk, if_true, Option.some.injEq] at hjv
          subst hjv
          cases hd with
          | mk a b => simp; omega
        · simp only [hk, if_false] at hjv
          have := ih hjv
          cases hd with
          | mk a b => simp; omega
     omega)

end

mutual

/-- Translation of `val_to_json` from `runtime.rs`: marshaling a WIT
runtime value back to JSON. Records and variants build their object with
map insertion (`objOfPairs`); the resource arm, an `unreachable!` panic in
the source, is modelled as JSON null. Float arms carry the integer model
of the value through. -/
def val_to_json (v : Val) : Json :=
  match v with
  | .bool b => .bool b
  | .string s => .str s
  | .char c => .str (String.mk [c])
  | .u8 n => .num n
  | .u16 n => .num n
  | .u32 n => .num n
  | .u64 n => .num n
  | .s8 n => .num n
  | .s16 n => .num n
  | .s32 n => .num n
  | .s64 n => .num n
  | .float32 n => .num n
  | .float64 n => .num n
  | .list xs => .arr (valsToJson xs)
  | .record fields => .obj (objOfPairs (valFieldsToJson fields))
  | .option o =>
    match o with
    | some w => val_to_json w
    | none => .null
  | .tuple xs => .arr (valsToJson xs)
  | .variant name o =>
    match o with
    | some w => .obj (objOfPairs [("type", .str name), ("value", val_to_json w)])
    | none => .obj (objOfPairs [("type", .str name)])
  | .enum name => .str name
  | .flags names => .arr (names.map .str)
  | .resultOk o =>
    match o with
    | some w => .obj [("ok", val_to_json w)]
    | none => .obj [("ok", .null)]
  | .resultErr o =>
    match o with
    | some w => .obj [("error", val_to_json w)]
    | none => .obj [("error", .null)]
  | .resource => .null
termination_by sizeOf v
decreasing_by
  all_goals simp_wf
  all_goals omega

/-- Element map of `val_to_json` over a list of values. -/
def valsToJson (xs : List Val) : List Json :=
  match xs with
  | [] => []
  | x :: rest => val_to_json x :: valsToJson rest
termination_by sizeOf xs
decreasing_by
  all_goals simp_wf
  all_goals omega

/-- Field map of `val_to_json` over record fields. -/
def valFieldsToJson (fields : List (String × Val)) : List (String × Json) :=
  match fields with
  | [] => []
  | (n, v) :: rest => (n, val_to_json v) :: valFieldsToJson rest
termination_by sizeOf fields
decreasing_by
  all_goals simp_wf
  all_goals omega

end

/-- Escape of one character inside a rendered JSON string, as the
`serde_json` Display implementation escapes it (the `\u00XX` escapes of
the remaining control characters are not modelled; no claim renders
them). -/
def escapeJsonChar (c : Char) : String :=
  if c = '"' then "\\\""
  else if c = '\\' then "\\\\"
  else if c = '\n' then "\\n"
  else if c = '\t' then "\\t"
  else if c = '\r' then "\\r"
  else String.mk [c]

/-- Escape of a rendered JSON string body. -/
def escapeJsonString (s : String) : String :=
  String.join (s.toList.map escapeJsonChar)

mutual

/-- Compact JSON rendering, as the `Display` implementation of
`serde_json::Value` that the source reaches through `{}` formatting of a
JSON value in an error message. -/
def jsonRender (j : Json) : String :=
  match j with
  | .null => "null"
  | .bool b => if b then "true" else "false"
  | .num n => toString n
  | .str s => "\"" ++ escapeJsonString s ++ "\""
  | .arr xs => "[" ++ String.intercalate "," (jsonRenderList xs) ++ "]"
  | .obj kvs => "\x7b" ++ String.intercalate "," (jsonRenderFields kvs) ++ "\x7d"
termination_by sizeOf j
decreasing_by
  all_goals simp_wf
  all_goals omega

/-- Element rendering of a JSON array. -/
def jsonRenderList (xs : List Json) : List String :=
  match xs with
  | [] => []
  | x :: rest => jsonRender x :: jsonRenderList rest
termination_by sizeOf xs
decreasing_by
  all_goals simp_wf
  all_goals omega

/-- Member rendering of a JSON object. -/
def jsonRenderFields (kvs : List (String × Json)) : List String :=
  match kvs with
  | [] => []
  | (k, v) :: rest =>
    ("\"" ++ escapeJsonString k ++ "\":" ++ jsonRender v) :: jsonRenderFields rest
termination_by sizeOf kvs
decreasing_by
  all_goals simp_wf
  all_goals omega

end

/-- Modelled from the spec: the `Function` value carried per exported
function (`{ interface, function_name, docs, params, result: optional
JSON-Schema-like value }`). The invoker of `runtime.rs` reads the
interface identifier, the function name and the declared return schema
through it; the `wit.rs` staged in the repository is an earlier revision
whose `Function` type lacks the `result` accessor, so the field set
follows the spec's data model. -/
structure FunctionSpec where
  interface : String
  function_name : String
  result : Option Json
deriving Repr

/-- Translation of `Invoker::reconstruct_record` from `runtime.rs`:
reconstruct a WIT record from multiple engine result slots, mapping slots
to the keys of the schema's `properties` map positionally. -/
def reconstruct_record (results : List Val) (schema_obj : List (String × Json)) :
    Except String Json :=
  match lookupAssoc schema_obj "properties" with
  | some (.obj properties) =>
    let field_names := properties.map (fun p => p.1)
    if results.length ≠ field_names.length then
      let r := results.length
      let f := field_names.length
      .error s!"Mismatch between wasmtime results ({r}) and record fields ({f})"
    else
      .ok (.obj (objOfPairs (field_names.zip (results.map val_to_json))))
  | _ => .error "Record schema missing properties"

/-- Translation of `Invoker::reconstruct_wit_return` from `runtime.rs`:
multiple engine result slots become an object when the declared return
schema is an object with `type = "object"` and a `properties` key, and a
plain array in every case that falls through the guard. -/
def reconstruct_wit_return (results : List Val) (f : FunctionSpec) :
    Except String Json :=
  match f.result with
  | some (.obj schema_obj) =>
    if (match lookupAssoc schema_obj "type" with
        | some (.str s) => s == "object"
        | _ => false)
        && (lookupAssoc schema_obj "properties").isSome then
      reconstruct_record results schema_obj
    else .ok (.arr (results.map val_to_json))
  | _ => .ok (.arr (results.map val_to_json))

/-- Translation of the result-handling match at the end of
`Invoker::invoke` in `runtime.rs` (lines 197-214): zero results become
JSON null, a single error-carrying result fails the call (embedding the
rendered error payload when there is one), any other single result
marshals directly, and several results go through
`reconstruct_wit_return`. -/
def process_results (results : List Val) (f : FunctionSpec) :
    Except String Json :=
  match results with
  | [] => .ok .null
  | [value] =>
    match value with
    | .resultErr (some error_val) =>
      let error_json := jsonRender (val_to_json error_val)
      .error s!"Component returned error: {error_json}"
    | .resultErr none => .error "Component returned error"
    | _ => .ok (val_to_json value)
  | _ => reconstruct_wit_return results f

/-- The per-parameter marshaling loop of `Invoker::invoke`, with the
parameter index used in its error message. -/
def marshalArgsLoop (params : List Ty) (args : List Json) (i : Nat) :
    Except String (List Val) :=
  match args, params with
  | [], _ => .ok []
  | _, [] => .ok []
  | a :: ar, p :: pr =>
    match json_to_val a p with
    | .error e => .error s!"Error converting parameter {i}: {e}"
    | .ok v =>
      match marshalArgsLoop pr ar (i + 1) with
      | .ok vs => .ok (v :: vs)
      | .error e => .error e

/-- The argument phase of `Invoker::invoke`: the arity check against the
declared parameter list, then per-parameter marshaling. -/
def marshal_args (params : List Ty) (args : List Json) :
    Except String (List Val) :=
  if args.length ≠ params.length then
    let p := params.length
    let a := args.length
    .error s!"Wrong number of args: expected {p}, got {a}"
  else marshalArgsLoop params args 0

/-- The pure core of `Invoker::invoke` after instantiation and export
lookup: arity check and argument marshaling, the engine call itself
(abstracted into the `call` oracle standing for `func.call_async`), and
result handling. -/
def invoke_core (params : List Ty) (args : List Json)
    (call : List Val → Except String (List Val)) (f : FunctionSpec) :
    Except String Json :=
  match marshal_args params args with
  | .error e => .error e
  | .ok arg_vals =>
    match call arg_vals with
    | .error e => .error e
    | .ok results => process_results results f

/-- Binary component contents, opaque to every claim settled here. -/
abbrev Bytes := List Nat

mutual

/-- Translation of `convert_json_value_to_string` from `composer.rs`:
strings pass through, numbers and booleans stringify, arrays become
comma-joined strings of their converted elements, objects and null are
rejected. -/
def convert_json_value_to_string (value : Json) : Except String String :=
  match value with
  | .str s => .ok s
  | .num n => .ok (toString n)
  | .bool b => .ok (if b then "true" else "false")
  | .arr xs =>
    match convertJsonList xs with
    | .ok string_items => .ok (String.intercalate "," string_items)
    | .error e => .error e
  | .obj _ => .error "Nested objects not supported in config"
  | .null => .error "Null values not supported in config"
termination_by sizeOf value
decreasing_by
  all_goals simp_wf
  all_goals omega

/-- Element conversion of an array-valued configuration entry. -/
def convertJsonList (xs : List Json) : Except String (List String) :=
  match xs with
  | [] => .ok []
  | x :: rest =>
    match convert_json_value_to_string x with
    | .error e => .error e
    | .ok s =>
      match convertJsonList rest with
      | .ok ss => .ok (s :: ss)
      | .error e => .error e
termination_by sizeOf xs
decreasing_by
  all_goals simp_wf
  all_goals omega

end

/-- The external operations `composer.rs` delegates to: the
`static_config::create_component` generator, and the `wac_graph`
register/plug/encode sequence that plugs the generated configuration
component into the tool component. Both work on opaque binaries, so they
enter the model as oracles. -/
structure ComposerWorld where
  createComponent : List (String × String) → Except String Bytes
  plug : Bytes → Bytes → Except String Bytes

/-- The conversion loop of `create_config_component` over the
configuration map (an association list in the model; the source iterates
a `HashMap` in unspecified order). -/
def convertConfigProps (config : List (String × Json)) :
    Except String (List (String × String)) :=
  match config with
  | [] => .ok []
  | (key, value) :: rest =>
    match convert_json_value_to_string value with
    | .error e => .error e
    | .ok string_value =>
      match convertConfigProps rest with
      | .ok ps => .ok ((key, string_value) :: ps)
      | .error e => .error e

/-- Translation of `create_config_component` from `composer.rs`: convert
every configuration value to its string form, then hand the property list
to the component generator. -/
def create_config_component (cw : ComposerWorld)
    (config : List (String × Json)) : Except String Bytes :=
  match convertConfigProps config with
  | .error e => .error e
  | .ok config_properties =>
    match cw.createComponent config_properties with
    | .ok b => .ok b
    | .error e => .error s!"Failed to create config component: {e}"

/-- Translation of `Composer::compose_tool_with_config` from
`composer.rs`: synthesize the configuration component, then plug it into
the tool component (the `wac_graph` package registration, plug and encode
steps are the `plug` oracle; the error-message wrapping of the encode
step is not modelled separately). -/
def compose_tool_with_config (cw : ComposerWorld) (tool_bytes : Bytes)
    (config : List (String × Json)) : Except String Bytes :=
  match create_config_component cw config with
  | .error e => .error e
  | .ok config_component_bytes => cw.plug config_component_bytes tool_bytes

/-- The WIT interface types of `wit_parser::Type` that the reflector of
`wit.rs` walks, with the `TypeId` indirection into the resolve graph
flattened into a tree: `alias` is `TypeDefKind::Type`, `handle` is
`TypeDefKind::Handle(_)`. -/
inductive WitType where
  | bool : WitType
  | u8 : WitType
  | u16 : WitType
  | u32 : WitType
  | u64 : WitType
  | s8 : WitType
  | s16 : WitType
  | s32 : WitType
  | s64 : WitType
  | f32 : WitType
  | f64 : WitType
  | char : WitType
  | string : WitType
  | errorContext : WitType
  | alias (t : WitType) : WitType
  | record (fields : List (String × WitType)) : WitType
  | variant (cases : List (String × Option WitType)) : WitType
  | enum (cases : List String) : WitType
  | option (t : WitType) : WitType
  | result (ok : Option WitType) (err : Option WitType) : WitType
  | list (t : WitType) : WitType
  | tuple (ts : List WitType) : WitType
  | flags (names : List String) : WitType
  | resource : WitType
  | handle : WitType
deriving Repr

mutual

/-- Translation of `Parser::validate_wit_type_for_json_rpc` from
`wit.rs`: every type is accepted except resources and resource handles,
which are rejected with a descriptive error; composites are validated
recursively. -/
def validate_wit_type_for_json_rpc (t : WitType) : Except String Unit :=
  match t with
  | .bool | .u8 | .u16 | .u32 | .u64 | .s8 | .s16 | .s32 | .s64
  | .f32 | .f64 | .char | .string | .errorContext => .ok ()
  | .alias inner => validate_wit_type_for_json_rpc inner
  | .record fields => validateFieldTypes fields
  | .variant cases => validateCaseTypes cases
  | .enum _ => .ok ()
  | .option inner => validate_wit_type_for_json_rpc inner
  | .result o e =>
    match validateOptWitType o with
    | .error msg => .error msg
    | .ok _ => validateOptWitType e
  | .list inner => validate_wit_type_for_json_rpc inner
  | .tuple ts => validateTypeList ts
  | .flags _ => .ok ()
  | .resource => .error "Resource types cannot be represented in JSON-RPC"
  | .handle => .error "Resource handles cannot be represented in JSON-RPC"
termination_by sizeOf t
decreasing_by
  all_goals simp_wf
  all_goals omega

/-- Validation of an optional payload type (result ok/err arms). -/
def validateOptWitType (o : Option WitType) : Except String Unit :=
  match o with
  | some t => validate_wit_type_for_json_rpc t
  | none => .ok ()
termination_by sizeOf o
decreasing_by
  all_goals simp_wf
  all_goals omega

/-- Validation loop over record fields. -/
def validateFieldTypes (fields : List (String × WitType)) : Except String Unit :=
  match fields with
  | [] => .ok ()
  | (_, ft) :: rest =>
    match validate_wit_type_for_json_rpc ft with
    | .error e => .error e
    | .ok _ => validateFieldTypes rest
termination_by sizeOf fields
decreasing_by
  all_goals simp_wf
  all_goals omega

/-- Validation loop over variant cases. -/
def validateCaseTypes (cases : List (String × Option WitType)) : Except String Unit :=
  match cases with
  | [] => .ok ()
  | (_, ct) :: rest =>
    match validateOptWitType ct with
    | .error e => .error e
    | .ok _ => validateCaseTypes rest
termination_by sizeOf cases
decreasing_by
  all_goals simp_wf
  all_goals omega

/-- Validation loop over tuple member types. -/
def validateTypeList (ts : List WitType) : Except String Unit :=
  match ts with
  | [] => .ok ()
  | t :: rest =>
    match validate_wit_type_for_json_rpc t with
    | .error e => .error e
    | .ok _ => validateTypeList rest
termination_by sizeOf ts
decreasing_by
  all_goals simp_wf
  all_goals omega

end

mutual

/-- Translation of `Parser::wit_type_to_json_schema` from `wit.rs`: the
JSON-Schema-shaped description of one WIT type. The source is a total
function whose resource, handle and default arms are `unreachable!`
panics (validation runs first); the model turns those panics into
explicit errors. -/
def wit_type_to_json_schema (t : WitType) : Except String Json :=
  match t with
  | .bool => .ok (.obj [("type", .str "boolean")])
  | .u8 => .ok (.obj [("type", .str "number"), ("minimum", .num 0), ("maximum", .num 255)])
  | .u16 => .ok (.obj [("type", .str "number"), ("minimum", .num 0), ("maximum", .num 65535)])
  | .u32 => .ok (.obj [("type", .str "number"), ("minimum", .num 0), ("maximum", .num 4294967295)])
  | .u64 => .ok (.obj [("type", .str "number"), ("minimum", .num 0)])
  | .s8 => .ok (.obj [("type", .str "number"), ("minimum", .num (-128)), ("maximum", .num 127)])
  | .s16 => .ok (.obj [("type", .str "number"), ("minimum", .num (-32768)), ("maximum", .num 32767)])
  | .s32 => .ok (.obj [("type", .str "number"), ("minimum", .num (-2147483648)), ("maximum", .num 2147483647)])
  | .s64 => .ok (.obj [("type", .str "number")])
  | .f32 | .f64 => .ok (.obj [("type", .str "number")])
  | .char => .ok (.obj [("type", .str "string"), ("minLength", .num 1), ("maxLength", .num 1)])
  | .string => .ok (.obj [("type", .str "string")])
  | .errorContext => .ok (.obj [("type", .str "string")])
  | .alias inner => wit_type_to_json_schema inner
  | .record fields =>
    match schemaOfFields fields with
    | .error e => .error e
    | .ok properties =>
      .ok (.obj [("type", .str "object"),
                 ("properties", .obj (objOfPairs properties)),
                 ("required", .arr ((fields.map (fun f => f.1)).map .str)),
                 ("additionalProperties", .bool false)])
  | .variant cases =>
    match schemaOfCases cases with
    | .error e => .error e
    | .ok caseSchemas => .ok (.obj [("oneOf", .arr caseSchemas)])
  | .enum cases =>
    .ok (.obj [("type", .str "string"), ("enum", .arr (cases.map .str))])
  | .option inner =>
    match wit_type_to_json_schema inner with
    | .error e => .error e
    | .ok innerSchema =>
      .ok (.obj [("anyOf", .arr [innerSchema, .obj [("type", .str "null")]])])
  | .result o e =>
    match schemaOfResultSide o with
    | .error msg => .error msg
    | .ok ok_schema =>
      match schemaOfResultSide e with
      | .error msg => .error msg
      | .ok err_schema =>
        .ok (.obj [("oneOf", .arr
          [.obj [("type", .str "object"),
                 ("properties", .obj [("ok", ok_schema)]),
                 ("required", .arr [.str "ok"]),
                 ("additionalProperties", .bool false)],
           .obj [("type", .str "object"),
                 ("properties", .obj [("error", err_schema)]),
                 ("required", .arr [.str "error"]),
                 ("additionalProperties", .bool false)]])])
  | .list inner =>
    match wit_type_to_json_schema inner with
    | .error e => .error e
    | .ok itemSchema => .ok (.obj [("type", .str "array"), ("items", itemSchema)])
  | .tuple ts =>
    match schemaOfTypeList ts with
    | .error e => .error e
    | .ok item_schemas =>
      let n := item_schemas.length
      .ok (.obj [("type", .str "array"),
                 ("items", .arr item_schemas),
                 ("minItems", .num n),
                 ("maxItems", .num n)])
  | .flags fs =>
    .ok (.obj [("type", .str "array"),
               ("items", .obj [("type", .str "string"), ("enum", .arr (fs.map .str))]),
               ("uniqueItems", .bool true)])
  | .resource => .error "unreachable: Resource types should be caught by validation"
  | .handle => .error "unreachable: Resource handles should be caught by validation"
termination_by sizeOf t
decreasing_by
  all_goals simp_wf
  all_goals omega

/-- Schema of one side of a result type, defaulting to the null schema
when the side carries no payload. -/
def schemaOfResultSide (o : Option WitType) : Except String Json :=
  match o with
  | some t => wit_type_to_json_schema t
  | none => .ok (.obj [("type", .str "null")])
termination_by sizeOf o
decreasing_by
  all_goals simp_wf
  all_goals omega

/-- The properties loop of the record arm of `wit_type_to_json_schema`. -/
def schemaOfFields (fields : List (String × WitType)) :
    Except String (List (String × Json)) :=
  match fields with
  | [] => .ok []
  | (fname, ft) :: rest =>
    match wit_type_to_json_schema ft with
    | .error e => .error e
    | .ok s =>
      match schemaOfFields rest with
      | .ok ps => .ok ((fname, s) :: ps)
      | .error e => .error e
termination_by sizeOf fields
decreasing_by
  all_goals simp_wf
  all_goals omega

/-- The case loop of the variant arm of `wit_type_to_json_schema`: a case
with a payload requires `type` and `value`, one without only `type`. -/
def schemaOfCases (cases : List (String × Option WitType)) :
    Except String (List Json) :=
  match cases with
  | [] => .ok []
  | (cname, cty) :: rest =>
    match (match cty with
      | some ct =>
        match wit_type_to_json_schema ct with
        | .error e => Except.error e
        | .ok valueSchema =>
          Except.ok (Json.obj
            [("type", .str "object"),
             ("properties", .obj [("type", .obj [("const", .str cname)]),
                                  ("value", valueSchema)]),
             ("required", .arr [.str "type", .str "value"]),
             ("additionalProperties", .bool false)])
      | none =>
        Except.ok (Json.obj
          [("type", .str "object"),
           ("properties", .obj [("type", .obj [("const", .str cname)])]),
           ("required", .arr [.str "type"]),
           ("additionalProperties", .bool false)])) with
    | .error e => .error e
    | .ok caseSchema =>
      match schemaOfCases rest with
      | .ok cs => .ok (caseSchema :: cs)
      | .error e => .error e
termination_by sizeOf cases
decreasing_by
  all_goals simp_wf
  all_goals omega

/-- The member loop of the tuple arm of `wit_type_to_json_schema`. -/
def schemaOfTypeList (ts : List WitType) : Except String (List Json) :=
  match ts with
  | [] => .ok []
  | t :: rest =>
    match wit_type_to_json_schema t with
    | .error e => .error e
    | .ok s =>
      match schemaOfTypeList rest with
      | .ok ss => .ok (s :: ss)
      | .error e => .error e
termination_by sizeOf ts
decreasing_by
  all_goals simp_wf
  all_goals omega

end

/-- Translation of `Parser::is_optional_type` from `wit.rs`: whether the
type is an option, looking through type aliases. -/
def is_optional_type (t : WitType) : Bool :=
  match t with
  | .option _ => true
  | .alias inner => is_optional_type inner
  | _ => false

/-- One declared parameter of an exported function (`FunctionParam` of
`wit.rs`). -/
structure WitFunctionParam where
  name : String
  wit_type : WitType
deriving Repr

/-- One exported function, as `ComponentFunction` of `wit.rs` carries it
between interface parsing and tool construction (the `namespace` field is
spelled `nspace`, `namespace` being a Lean keyword). -/
structure ComponentFunction where
  component : String
  nspace : String
  package : String
  version : Option String
  interface : String
  function : String
  docs : String
  params : List WitFunctionParam
  returns : List WitType
deriving Repr

/-- The reflected tool of `wit.rs` (`ComponentTool`), with the `rmcp`
`Tool` record inlined into its name, description and input-schema
fields. -/
structure ComponentTool where
  tool_name : String
  description : String
  input_schema : Json
  bytes : Bytes
  nspace : String
  package : String
  version : Option String
  interface : String
  function : String
  params : List WitFunctionParam
deriving Repr

/-- The parameter loop of `Parser::function_to_component_tool`: per
parameter, its JSON schema with a `description` member inserted when the
schema is an object. -/
def buildParamProps (params : List WitFunctionParam) :
    Except String (List (String × Json)) :=
  match params with
  | [] => .ok []
  | p :: rest =>
    match wit_type_to_json_schema p.wit_type with
    | .error e => .error e
    | .ok param_schema =>
      let pname := p.name
      let schema1 :=
        match param_schema with
        | .obj o => Json.obj (insertAssoc o "description" (.str s!"Parameter: {pname}"))
        | other => other
      match buildParamProps rest with
      | .ok ps => .ok ((p.name, schema1) :: ps)
      | .error e => .error e

/-- The parameter-validation loop of `Parser::function_to_component_tool`. -/
def validateParamTypes (params : List WitFunctionParam) : Except String Unit :=
  match params with
  | [] => .ok ()
  | p :: rest =>
    match validate_wit_type_for_json_rpc p.wit_type with
    | .error e => .error e
    | .ok _ => validateParamTypes rest

/-- Translation of `Parser::function_to_component_tool` from `wit.rs`:
derive the exposed tool name (disambiguated with the interface name on
conflicts), default the description, validate every parameter and return
type, and build the input schema, whose `required` list holds exactly the
parameters whose type is not optional. -/
def function_to_component_tool (func : ComponentFunction) (bytes : Bytes)
    (requires_disambiguation : Bool) : Except String ComponentTool :=
  let c := func.component
  let i := func.interface
  let f := func.function
  let tool_name :=
    if requires_disambiguation then s!"{c}_{i}_{f}" else s!"{c}_{f}"
  let description :=
    if func.docs == "" then s!"Call {f} function from {c} component"
    else func.docs
  match validateParamTypes func.params with
  | .error e => .error e
  | .ok _ =>
  match validateTypeList func.returns with
  | .error e => .error e
  | .ok _ =>
  match buildParamProps func.params with
  | .error e => .error e
  | .ok props =>
    let required :=
      (func.params.filter (fun p => ! is_optional_type p.wit_type)).map
        (fun p => p.name)
    let input_schema := Json.obj
      [("type", .str "object"),
       ("properties", .obj (objOfPairs props)),
       ("required", .arr (required.map .str)),
       ("additionalProperties", .bool false)]
    .ok { tool_name := tool_name, description := description,
          input_schema := input_schema, bytes := bytes,
          nspace := func.nspace, package := func.package,
          version := func.version, interface := func.interface,
          function := func.function, params := func.params }

/-- `ComponentSpec` of `registry.rs`: the fully composed, validated
component held by the registries. -/
structure ComponentSpec where
  name : String
  bytes : Bytes
  imports : List String
  exports : List String
  runtime_capabilities : List String
  functions : Option (List (String × FunctionSpec))
deriving Repr

/-- `RuntimeCapability` of `registry.rs`: an engine-native capability with
its fixed interface list. -/
structure RuntimeCapability where
  uri : String
  exposed : Bool
  interfaces : List String
deriving Repr

/-- `ComponentCapability` of `registry.rs`: a component-backed capability
with its exposure flag and exported interfaces. -/
structure ComponentCapability where
  component : ComponentSpec
  exposed : Bool
  exports : List String
deriving Repr

/-- `CapabilityRegistry` of `registry.rs`, with its two `HashMap`s as
association lists. -/
structure CapabilityRegistry where
  runtime_capabilities : List (String × RuntimeCapability)
  component_capabilities : List (String × ComponentCapability)
deriving Repr

/-- `CapabilityRegistry::get_runtime_capability`. -/
def get_runtime_capability (reg : CapabilityRegistry) (name : String) :
    Option RuntimeCapability :=
  lookupAssoc reg.runtime_capabilities name

/-- `CapabilityRegistry::get_exposed_runtime_capability`: the lookup
filtered by the exposure flag. -/
def get_exposed_runtime_capability (reg : CapabilityRegistry) (name : String) :
    Option RuntimeCapability :=
  match lookupAssoc reg.runtime_capabilities name with
  | some cap => if cap.exposed then some cap else none
  | none => none

/-- `CapabilityRegistry::get_component_capability`. -/
def get_component_capability (reg : CapabilityRegistry) (name : String) :
    Option ComponentCapability :=
  lookupAssoc reg.component_capabilities name

/-- `CapabilityRegistry::get_exposed_component_capability`. -/
def get_exposed_component_capability (reg : CapabilityRegistry) (name : String) :
    Option ComponentCapability :=
  match lookupAssoc reg.component_capabilities name with
  | some cap => if cap.exposed then some cap else none
  | none => none

/-- Modelled from the spec: the loader's `CapabilityDefinition` record
exactly as `registry.rs` consumes it (name, source URI, exposure flag,
declared capability names, optional configuration map); the loader
revision staged in the repository is a later one that no longer declares
this struct. -/
structure CapabilityDefinition where
  name : String
  uri : String
  exposed : Bool
  capabilities : List String
  config : Option (List (String × Json))
deriving Repr

/-- Modelled from the spec: the loader's `ToolDefinition` record as
`registry.rs` consumes it; same fields as a capability definition. -/
structure ToolDefinition where
  name : String
  uri : String
  exposed : Bool
  capabilities : List String
  config : Option (List (String × Json))
deriving Repr

/-- The effectful collaborators of `registry.rs`, as oracles: `fs::read`,
`Parser::parse` (binary decoding of imports, exports and optionally
functions), `Composer::compose_with_config` and
`Composer::compose_components`. -/
structure World where
  readFile : String → Except String Bytes
  parse : Bytes → Bool → Except String (List String × List String × Option (List (String × FunctionSpec)))
  composeWithConfig : Bytes → List (String × Json) → Except String Bytes
  composeComponents : Bytes → Bytes → Except String Bytes

/-- Translation of `resolve_uri` from `registry.rs`: strip an optional
`file://` prefix; never fails. -/
def resolve_uri (uri : String) : Except String String :=
  .ok (if uri.startsWith "file://" then uri.drop 7 else uri)

/-- Translation of `get_interfaces_for_runtime_capability` from
`registry.rs`: the static table mapping an engine-native capability URI
to its fixed interface list (unknown URIs map to the empty list, with a
log line the model drops). -/
def get_interfaces_for_runtime_capability (uri : String) : List String :=
  if uri == "wasmtime:http" then
    ["wasi:http/outgoing-handler@0.2.3", "wasi:http/types@0.2.3"]
  else if uri == "wasmtime:io" then
    ["wasi:io/error@0.2.3", "wasi:io/poll@0.2.3", "wasi:io/streams@0.2.3"]
  else if uri == "wasmtime:inherit-network" then
    ["wasi:sockets/tcp@0.2.3", "wasi:sockets/udp@0.2.3",
     "wasi:sockets/network@0.2.3", "wasi:sockets/instance-network@0.2.3"]
  else if uri == "wasmtime:allow-ip-name-lookup" then
    ["wasi:sockets/ip-name-lookup@0.2.3"]
  else if uri == "wasmtime:wasip2" then
    ["wasi:cli/environment@0.2.3", "wasi:cli/exit@0.2.3",
     "wasi:cli/stderr@0.2.3", "wasi:cli/stdin@0.2.3",
     "wasi:cli/stdout@0.2.3", "wasi:clocks/monotonic-clock@0.2.3",
     "wasi:clocks/wall-clock@0.2.3", "wasi:filesystem/preopens@0.2.3",
     "wasi:filesystem/types@0.2.3", "wasi:io/error@0.2.3",
     "wasi:io/poll@0.2.3", "wasi:io/streams@0.2.3",
     "wasi:random/random@0.2.3", "wasi:sockets/tcp@0.2.3",
     "wasi:sockets/udp@0.2.3", "wasi:sockets/network@0.2.3",
     "wasi:sockets/instance-network@0.2.3",
     "wasi:sockets/ip-name-lookup@0.2.3",
     "wasi:sockets/tcp-create-socket@0.2.3",
     "wasi:sockets/udp-create-socket@0.2.3"]
  else []

/-- Translation of `get_expected_interfaces_from_capabilities` from
`registry.rs`: the union (a `HashSet` in the source, an append list here;
only membership is ever read) of the interfaces of every requested
runtime capability and the exports of every requested component
capability, the latter filtered by exposure when processing a tool. -/
def get_expected_interfaces_from_capabilities (capabilities : List String)
    (reg : CapabilityRegistry) (is_t : Bool) : List String :=
  capabilities.foldl (fun interfaces capability_name =>
    let interfaces1 :=
      match get_runtime_capability reg capability_name with
      | some rc => interfaces ++ rc.interfaces
      | none => interfaces
    match (if is_t then get_exposed_component_capability reg capability_name
           else get_component_capability reg capability_name) with
    | some cc => interfaces1 ++ cc.exports
    | none => interfaces1) []

/-- Translation of `validate_imports` from `registry.rs`: every
component import must be covered by the expected-interface set of the requested
capabilities; the first uncovered import aborts with an
unauthorized-interface error. -/
def validate_imports (component_imports : List String)
    (requested_capabilities : List String) (reg : CapabilityRegistry)
    (is_t : Bool) : Except String Unit :=
  let expected := get_expected_interfaces_from_capabilities
    requested_capabilities reg is_t
  match component_imports.find? (fun i => ! expected.contains i) with
  | some imp =>
    .error s!"Component imports unauthorized interface '{imp}' - must request appropriate capability"
  | none => .ok ()

/-- Append-only set union on capability-name lists, as `HashSet::extend`
over names (only membership is ever read from the result). -/
def listUnion (a b : List String) : List String :=
  b.foldl (fun acc x => if acc.contains x then acc else acc ++ [x]) a

/-- The configuration step of `process_component_core`: when the
parsed imports include `wasi:config/store`, compose the configuration in (an
absent configuration map composes as empty) and strip those imports;
otherwise leave the component alone (the unused-config warning print is
dropped). -/
def config_step (w : World) (is_t : Bool) (name : String)
    (config : Option (List (String × Json))) (bytes : Bytes)
    (imports : List String) : Except String (Bytes × List String) :=
  if imports.any (fun i => i.startsWith "wasi:config/store") then
    let config_to_use := config.getD []
    match w.composeWithConfig bytes config_to_use with
    | .error e =>
      let kind := if is_t then "tool" else "capability"
      .error s!"Failed to compose {kind} '{name}' with config: {e}"
    | .ok bytes2 =>
      .ok (bytes2, imports.filter (fun i => ! i.startsWith "wasi:config/store"))
  else .ok (bytes, imports)

/-- The capability loop of `process_component_core`: a requested name that
resolves to a component capability is composed in and its transitive
runtime-capability set merged; one that resolves to a runtime capability
is kept for invocation-time linker setup; any other name is an
unavailable-dependency error. -/
def compose_capability_loop (w : World) (name : String) (is_t : Bool)
    (reg : CapabilityRegistry) :
    List String → Bytes → List String → List String →
    Except String (Bytes × List String × List String)
  | [], bytes, remaining, allRt => .ok (bytes, remaining, allRt)
  | capability_name :: rest, bytes, remaining, allRt =>
    match (if is_t then get_exposed_component_capability reg capability_name
           else get_component_capability reg capability_name) with
    | some component_capability =>
      match w.composeComponents bytes component_capability.component.bytes with
      | .error e =>
        if is_t then
          .error s!"Failed to compose tool '{name}' with capability '{capability_name}': {e}"
        else
          .error s!"Failed to compose capability '{name}' with dependency '{capability_name}': {e}"
      | .ok bytes2 =>
        compose_capability_loop w name is_t reg rest bytes2 remaining
          (listUnion allRt component_capability.component.runtime_capabilities)
    | none =>
      match (if is_t then get_exposed_runtime_capability reg capability_name
             else get_runtime_capability reg capability_name) with
      | some _ =>
        compose_capability_loop w name is_t reg rest bytes
          (remaining ++ [capability_name]) allRt
      | none =>
        if is_t then
          .error s!"Tool '{name}' requested unavailable capability '{capability_name}'"
        else
          .error s!"Capability '{name}' requested unavailable dependency '{capability_name}'"

/-- Translation of `process_component_core` from `registry.rs`: read and
parse the binary, fold configuration in, validate the remaining imports
against the requested capabilities, compose every component-backed
capability in, and store the spec with the merged runtime-capability
set. -/
def process_component_core (w : World) (name uri : String)
    (config : Option (List (String × Json))) (capabilities : List String)
    (reg : CapabilityRegistry) (is_t : Bool) : Except String ComponentSpec := do
  let component_path ← resolve_uri uri
  let bytes0 ← w.readFile component_path
  let (imports0, exports, functions) ←
    (w.parse bytes0 is_t).mapError (fun e => s!"Failed to parse component: {e}")
  let (bytes1, imports) ← config_step w is_t name config bytes0 imports0
  let _ ← validate_imports imports capabilities reg is_t
  let (bytes2, remaining_capabilities, all_runtime_capabilities) ←
    compose_capability_loop w name is_t reg capabilities bytes1 [] []
  .ok { name := name, bytes := bytes2, imports := imports, exports := exports,
        runtime_capabilities := listUnion all_runtime_capabilities remaining_capabilities,
        functions := functions }

/-- Translation of `process_capability_definition` from `registry.rs`
(the composed-with-dependency log loop is dropped). -/
def process_capability_definition (w : World)
    (definition : CapabilityDefinition) (reg : CapabilityRegistry) :
    Except String ComponentSpec :=
  process_component_core w definition.name definition.uri definition.config
    definition.capabilities reg false

/-- Translation of `resolve_component_capability_from_definition` from
`registry.rs`: engine-native URIs are refused, component definitions are
processed and wrapped with their exposure flag and export list. -/
def resolve_component_capability_from_definition (w : World)
    (definition : CapabilityDefinition) (reg : CapabilityRegistry) :
    Except String ComponentCapability :=
  if definition.uri.startsWith "wasmtime:" then
    let n := definition.name
    .error s!"Wasmtime capability '{n}' should not be resolved as component"
  else
    match process_capability_definition w definition reg with
    | .error e => .error e
    | .ok component_spec =>
      .ok { component := component_spec, exposed := definition.exposed,
            exports := component_spec.exports }

/-- Translation of `process_tool_definition` from `registry.rs`: every
requested capability must resolve to an exposed runtime or component
capability before the component is processed as a tool (the
composed-with-capability log loop is dropped). -/
def process_tool_definition (w : World) (definition : ToolDefinition)
    (reg : CapabilityRegistry) : Except String ComponentSpec :=
  match definition.capabilities.find? (fun c =>
      (get_exposed_runtime_capability reg c).isNone
        && (get_exposed_component_capability reg c).isNone) with
  | some capability_name =>
    let n := definition.name
    .error s!"Tool '{n}' requested unavailable capability '{capability_name}'"
  | none =>
    process_component_core w definition.name definition.uri definition.config
      definition.capabilities reg true

/-- Character-list prefix test for the substring check below. -/
def hasPrefixCL (s pat : List Char) : Bool :=
  match s, pat with
  | _, [] => true
  | [], _ :: _ => false
  | c :: cs, p :: ps => c == p && hasPrefixCL cs ps

/-- Character-list substring test for the substring check below. -/
def hasSubCL (s pat : List Char) : Bool :=
  match s with
  | [] => pat.isEmpty
  | _ :: rest => hasPrefixCL s pat || hasSubCL rest pat

/-- Rust `str::contains` on string slices, as `try_next` uses it to
classify retryable errors. -/
def strContains (s pat : String) : Bool :=
  hasSubCL s.toList pat.toList

/-- `CapabilityRegistryBuilder` of `registry.rs`. -/
structure CapabilityRegistryBuilder where
  runtime_capabilities : List (String × RuntimeCapability)
  component_capabilities : List (String × ComponentCapability)
  pending : List CapabilityDefinition
  last_errors : List (String × String)
deriving Repr

/-- Translation of `CapabilityRegistryBuilder::try_next` from
`registry.rs`: attempt the front pending definition against the current
registry state; success stores it (`some true`), an
unavailable-dependency or unauthorized-interface error requeues it at the
back and records the error (`some false`), any other error aborts; an
empty queue yields `none`. -/
def try_next (w : World) (b : CapabilityRegistryBuilder) :
    Except String (Option Bool × CapabilityRegistryBuilder) :=
  match b.pending with
  | [] => .ok (none, b)
  | definition :: rest =>
    let temp_registry : CapabilityRegistry :=
      ⟨b.runtime_capabilities, b.component_capabilities⟩
    match resolve_component_capability_from_definition w definition temp_registry with
    | .ok component_capability =>
      .ok (some true,
        { b with
          component_capabilities :=
            insertAssoc b.component_capabilities definition.name component_capability,
          pending := rest })
    | .error e =>
      if strContains e "unavailable dependency"
          || strContains e "unauthorized interface" then
        .ok (some false,
          { b with
            last_errors := insertAssoc b.last_errors definition.name e,
            pending := rest ++ [definition] })
      else
        let n := definition.name
        .error s!"Failed to resolve capability '{n}': {e}"

/-- The aggregated stall error of
`CapabilityRegistryBuilder::build_registry`: one line per still-pending
definition with its last recorded error. -/
def aggregate_errors (pending : List CapabilityDefinition)
    (last_errors : List (String × String)) : String :=
  let detailed_errors := pending.map (fun definition =>
    let n := definition.name
    match lookupAssoc last_errors definition.name with
    | some e => s!"'{n}': {e}"
    | none => s!"'{n}': unknown error")
  "Cannot resolve capability dependencies:\n"
    ++ String.intercalate "\n" detailed_errors

/-- The retry loop of `CapabilityRegistryBuilder::build_registry`, with
the source's `attempts < max_attempts` guard carried as remaining fuel
(`fuel = max_attempts - attempts`) and the number of `try_next` calls the
run performed returned beside the result: consecutive deferrals reaching
the current queue length abort with the aggregated error, a success
resets the deferral counter. -/
def build_registry_loop (w : World) (b : CapabilityRegistryBuilder)
    (consecutive_failures : Nat) :
    Nat → Except String CapabilityRegistry × Nat
  | 0 => (.ok ⟨b.runtime_capabilities, b.component_capabilities⟩, 0)
  | fuel + 1 =>
    if b.pending.isEmpty then
      (.ok ⟨b.runtime_capabilities, b.component_capabilities⟩, 0)
    else
      match try_next w b with
      | .error e => (.error e, 1)
      | .ok (some true, b2) =>
        let r := build_registry_loop w b2 0 fuel
        (r.1, r.2 + 1)
      | .ok (some false, b2) =>
        if consecutive_failures + 1 ≥ b2.pending.length then
          (.error (aggregate_errors b2.pending b2.last_errors), 1)
        else
          let r := build_registry_loop w b2 (consecutive_failures + 1) fuel
          (r.1, r.2 + 1)
      | .ok (none, b2) =>
        (.ok ⟨b2.runtime_capabilities, b2.component_capabilities⟩, 1)

/-- Translation of `CapabilityRegistryBuilder::build_registry` from
`registry.rs`: run the retry loop with the attempt budget
`pending.len() * pending.len()` computed from the initial queue. -/
def build_registry (w : World) (b : CapabilityRegistryBuilder) :
    Except String CapabilityRegistry :=
  (build_registry_loop w b 0 (b.pending.length * b.pending.length)).1

/-- Translation of `create_capability_registry` from `registry.rs`:
engine-native (`wasmtime:`) definitions become runtime capabilities via
the static interface table, every other definition is queued, and the
retry loop builds the registry. -/
def create_capability_registry (w : World)
    (definitions : List CapabilityDefinition) :
    Except String CapabilityRegistry :=
  let b := definitions.foldl (fun b d =>
    if d.uri.startsWith "wasmtime:" then
      let rc : RuntimeCapability :=
        { uri := d.uri, exposed := d.exposed,
          interfaces := get_interfaces_for_runtime_capability d.uri }
      { b with runtime_capabilities :=
          insertAssoc b.runtime_capabilities d.name rc }
    else { b with pending := b.pending ++ [d] })
    ({ runtime_capabilities := [], component_capabilities := [],
       pending := [], last_errors := [] } : CapabilityRegistryBuilder)
  build_registry w b

/-- Translation of `create_tool_registry` from `registry.rs`: every tool
definition is processed independently; a failure skips that tool with a
warning (the print is dropped) and the build always returns the map of
the successes. -/
def create_tool_registry (w : World) (definitions : List ToolDefinition)
    (capability_registry : CapabilityRegistry) :
    Except String (List (String × ComponentSpec)) :=
  .ok (definitions.foldl (fun tool_registry d =>
    match process_tool_definition w d capability_registry with
    | .ok spec => insertAssoc tool_registry d.name spec
    | .error _ => tool_registry) [])

/-- Translation of `build_registries` from `registry.rs`: the capability
registry first, then the tool registry against it. -/
def build_registries (w : World)
    (capability_definitions : List CapabilityDefinition)
    (tool_definitions : List ToolDefinition) :
    Except String (CapabilityRegistry × List (String × ComponentSpec)) :=
  match create_capability_registry w capability_definitions with
  | .error e => .error e
  | .ok capability_registry =>
    match create_tool_registry w tool_definitions capability_registry with
    | .error e => .error e
    | .ok tool_registry => .ok (capability_registry, tool_registry)

/-- The union of the registry interface lists of a set of runtime
capability names: the coverage set the capability-coverage claim measures
a stored spec's imports against. -/
def runtime_interface_union (reg : CapabilityRegistry)
    (names : List String) : List String :=
  names.foldl (fun acc n =>
    match get_runtime_capability reg n with
    | some rc => acc ++ rc.interfaces
    | none => acc) []

mutual

/-- Claim-side predicate for the round-trip property: the WIT type shapes
`json_to_val` has marshaling arms for — primitives except the float
types (floating point stays out of scope), lists, tuples, records and
options — with record field names required distinct, as well-formed WIT
records guarantee. -/
def tySupported (t : Ty) : Bool :=
  match t with
  | .bool | .u8 | .u16 | .u32 | .u64 | .s8 | .s16 | .s32 | .s64
  | .char | .string => true
  | .list t1 => tySupported t1
  | .record fields =>
    decide ((fields.map (fun f => f.1)).Nodup) && fieldTysSupported fields
  | .tuple ts => tysSupported ts
  | .option t1 => tySupported t1
  | _ => false
termination_by sizeOf t
decreasing_by
  all_goals simp_wf
  all_goals omega

/-- Support over tuple member types. -/
def tysSupported (ts : List Ty) : Bool :=
  match ts with
  | [] => true
  | t :: rest => tySupported t && tysSupported rest
termination_by sizeOf ts
decreasing_by
  all_goals simp_wf
  all_goals omega

/-- Support over record field types. -/
def fieldTysSupported (fields : List (String × Ty)) : Bool :=
  match fields with
  | [] => true
  | (_, ft) :: rest => tySupported ft && fieldTysSupported rest
termination_by sizeOf fields
decreasing_by
  all_goals simp_wf
  all_goals omega

end

mutual

/-- Claim-side predicate: conformance of a JSON value to the reflected
schema of a WIT type shape, as the round-trip claim's hypothesis reads
("a JSON value conforming to the shape's schema"). Numeric conformance
follows the minimum/maximum bounds the reflector emits, restricted to
the integer-valued numbers of the JSON model; record conformance
requires every field present (the reflector lists every record field as
required) and no extra keys (`additionalProperties: false`); enum,
variant, result and flags conformance follow their reflected schemas.
Float shapes conform never (out of scope). -/
def jsonConforms (j : Json) (t : Ty) : Bool :=
  match j, t with
  | .bool _, .bool => true
  | .str _, .string => true
  | .str s, .char => s.length == 1
  | .num n, .u8 => decide (0 ≤ n ∧ n ≤ 255)
  | .num n, .u16 => decide (0 ≤ n ∧ n ≤ 65535)
  | .num n, .u32 => decide (0 ≤ n ∧ n ≤ 4294967295)
  | .num n, .u64 => decide (0 ≤ n ∧ n < 2 ^ 64)
  | .num n, .s8 => decide (-128 ≤ n ∧ n ≤ 127)
  | .num n, .s16 => decide (-32768 ≤ n ∧ n ≤ 32767)
  | .num n, .s32 => decide (-2147483648 ≤ n ∧ n ≤ 2147483647)
  | .num n, .s64 => decide (-(2 ^ 63) ≤ n ∧ n < 2 ^ 63)
  | .str s, .enum cases => cases.contains s
  | .arr xs, .list t1 => listConforms xs t1
  | .arr xs, .tuple ts => xs.length == ts.length && tupleConforms xs ts
  | .arr xs, .flags names =>
    flagsConform xs names
  | .obj kvs, .record fields =>
    decide ((kvs.map (fun kv => kv.1)).Nodup)
      && recordConforms kvs fields
      && kvs.all (fun kv => fields.any (fun f => f.1 == kv.1))
  | .obj kvs, .variant cases => variantConforms kvs cases
  | .obj kvs, .result o e =>
    (match kvs with
     | [("ok", v)] => resultSideConforms v o
     | [("error", v)] => resultSideConforms v e
     | _ => false)
  | .null, .option _ => true
  | j, .option t1 => jsonConforms j t1
  | _, _ => false
termination_by sizeOf j + sizeOf t
decreasing_by
  all_goals simp_wf
  all_goals omega

/-- Elementwise conformance of an array to a list schema. -/
def listConforms (xs : List Json) (t : Ty) : Bool :=
  match xs with
  | [] => true
  | x :: rest => jsonConforms x t && listConforms rest t
termination_by sizeOf xs + sizeOf t
decreasing_by
  all_goals simp_wf
  all_goals omega

/-- Positional conformance of an array to a tuple schema. -/
def tupleConforms (xs : List Json) (ts : List Ty) : Bool :=
  match xs, ts with
  | [], [] => true
  | x :: xr, t :: tr => jsonConforms x t && tupleConforms xr tr
  | _, _ => false
termination_by sizeOf xs + sizeOf ts
decreasing_by
  all_goals simp_wf
  all_goals omega

/-- Conformance of a flags array: distinct strings drawn from the flag
names (`uniqueItems` with the name enumeration). -/
def flagsConform (xs : List Json) (names : List String) : Bool :=
  match xs with
  | [] => true
  | .str s :: rest =>
    names.contains s && rest.all (fun y =>
      match y with
      | .str s2 => ! (s2 == s)
      | _ => false) && flagsConform rest names
  | _ => false
termination_by sizeOf xs
decreasing_by
  all_goals simp_wf
  all_goals omega

/-- Per-field conformance of an object to a record schema: every field
present with a conforming value. -/
def recordConforms (kvs : List (String × Json)) (fields : List (String × Ty)) : Bool :=
  match fields with
  | [] => true
  | (fname, ft) :: rest =>
    (match hjv : lookupAssoc kvs fname with
     | some jv => jsonConforms jv ft
     | none => false) && recordConforms kvs rest
termination_by sizeOf kvs + sizeOf fields
decreasing_by
  all_goals simp_wf
  all_goals first
  | omega
  | (have hlt : sizeOf jv < sizeOf kvs := by
      clear * - hjv
      induction kvs with
      | nil => simp [lookupAssoc] at hjv
      | cons hd tl ih =>
        rw [lookupAssoc] at hjv
        by_cases hk : hd.1 == fname
        · simp only [hk, if_true, Option.some.injEq] at hjv
          subst hjv
          cases hd with
          | mk a b => simp; omega
        · simp only [hk, if_false] at hjv
          have := ih hjv
          cases hd with
          | mk a b => simp; omega
     omega)

/-- Conformance of a variant object: a `type` member holding a case name,
with a conforming `value` member exactly when the case carries a
payload. -/
def variantConforms (kvs : List (String × Json)) (cases : List (String × Option Ty)) : Bool :=
  match cases with
  | [] => false
  | (cname, cty) :: rest =>
    (match cty with
     | some ct =>
       match kvs with
       | [("type", .str s), ("value", v)] => s == cname && jsonConforms v ct
       | _ => false
     | none =>
       match kvs with
       | [("type", .str s)] => s == cname
       | _ => false)
    || variantConforms kvs rest
termination_by sizeOf kvs + sizeOf cases
decreasing_by
  all_goals simp_wf
  all_goals omega

/-- Conformance of one side of a result object: the payload schema when
the side carries one, the null schema otherwise. -/
def resultSideConforms (v : Json) (o : Option Ty) : Bool :=
  match o with
  | some t => jsonConforms v t
  | none =>
    match v with
    | .null => true
    | _ => false
termination_by sizeOf v + sizeOf o
decreasing_by
  all_goals simp_wf
  all_goals omega

end

/-- Claim-side predicate: the WIT type shapes whose JSON inputs
`json_to_val` has no marshaling arm for at the top level — variants,
enums, results and flags (they appear only on output through
`val_to_json`). -/
def tyRejectedTop (t : Ty) : Bool :=
  match t with
  | .variant _ | .enum _ | .result _ _ | .flags _ => true
  | _ => false

/-- Claim-side relation: schema equivalence of two JSON values as the
round-trip claim reads it — numeric identity, array order preserved, and
object equality up to member order (same key sets with equivalent
values). -/
inductive JsonEquiv : Json → Json → Prop where
  | null : JsonEquiv .null .null
  | bool (b : Bool) : JsonEquiv (.bool b) (.bool b)
  | num (n : Int) : JsonEquiv (.num n) (.num n)
  | str (s : String) : JsonEquiv (.str s) (.str s)
  | arr (xs ys : List Json) (hlen : xs.length = ys.length)
      (h : ∀ p, p ∈ xs.zip ys → JsonEquiv p.1 p.2) :
      JsonEquiv (.arr xs) (.arr ys)
  | obj (l1 l2 : List (String × Json))
      (hkeys : ∀ k, (∃ v, (k, v) ∈ l1) ↔ (∃ w, (k, w) ∈ l2))
      (hvals : ∀ k v w, (k, v) ∈ l1 → (k, w) ∈ l2 → JsonEquiv v w) :
      JsonEquiv (.obj l1) (.obj l2)

theorem toString_string_eq (s : String) : toString s = s := rfl

theorem lookupAssoc_mem {α : Type} {kvs : List (String × α)} {k : String} {v : α}
    (h : lookupAssoc kvs k = some v) : (k, v) ∈ kvs := by
  induction kvs with
  | nil => simp [lookupAssoc] at h
  | cons hd tl ih =>
    cases hd with
    | mk a b =>
      rw [lookupAssoc] at h
      by_cases hk : a == k
      · have h1 : a = k := by simpa using hk
        simp only [hk, if_true, Option.some.injEq] at h
        subst h1
        subst h
        exact List.mem_cons_self _ _
      · simp only [hk, if_false] at h
        exact List.mem_cons_of_mem _ (ih h)

theorem lookupAssoc_of_mem_nodup {α : Type} {kvs : List (String × α)} {k : String}
    {v : α} (hnd : (kvs.map (fun p => p.1)).Nodup) (h : (k, v) ∈ kvs) :
    lookupAssoc kvs k = some v := by
  induction kvs with
  | nil => simp at h
  | cons hd tl ih =>
    cases hd with
    | mk a b =>
      simp only [List.map_cons, List.nodup_cons] at hnd
      rcases List.mem_cons.mp h with h1 | h1
      · rw [show a = k from congrArg Prod.fst h1.symm, lookupAssoc]
        simp [show b = v from congrArg Prod.snd h1.symm]
      · have hne : ¬ a = k := by
          intro he
          exact hnd.1 (he ▸ List.mem_map.mpr ⟨(k, v), h1, rfl⟩)
        rw [lookupAssoc]
        simp only [beq_iff_eq, hne, if_false]
        exact ih hnd.2 h1

theorem insertAssoc_lookup_self {α : Type} (kvs : List (String × α)) (k : String)
    (v : α) : lookupAssoc (insertAssoc kvs k v) k = some v := by
  induction kvs with
  | nil => simp [insertAssoc, lookupAssoc]
  | cons hd tl ih =>
    cases hd with
    | mk a b =>
      rw [insertAssoc]
      by_cases hk : a == k
      · rw [if_pos hk, lookupAssoc, if_pos hk]
      · rw [if_neg hk, lookupAssoc, if_neg hk, ih]

theorem insertAssoc_lookup_other {α : Type} (kvs : List (String × α))
    (k k2 : String) (v : α) (hne : ¬ k2 = k) :
    lookupAssoc (insertAssoc kvs k v) k2 = lookupAssoc kvs k2 := by
  induction kvs with
  | nil =>
    have h1 : ¬ (k == k2) = true := by
      intro hh
      have hkk : k = k2 := by simpa using hh
      exact hne hkk.symm
    show lookupAssoc [(k, v)] k2 = lookupAssoc [] k2
    conv_lhs => rw [lookupAssoc]
    rw [if_neg h1]
  | cons hd tl ih =>
    cases hd with
    | mk a b =>
      rw [insertAssoc]
      by_cases hk : a == k
      · have hdk : a = k := by simpa using hk
        rw [if_pos hk, lookupAssoc, lookupAssoc]
        have hno : ¬ (a == k2) = true := by
          intro hh
          exact hne (by rw [← show a = k2 by simpa using hh, hdk])
        rw [if_neg hno, if_neg hno]
      · rw [if_neg hk, lookupAssoc, lookupAssoc]
        by_cases h2 : a == k2
        · rw [if_pos h2, if_pos h2]
        · rw [if_neg h2, if_neg h2, ih]

theorem valsToJson_eq_map (xs : List Val) : valsToJson xs = xs.map val_to_json := by
  induction xs with
  | nil => rw [valsToJson]; rfl
  | cons x rest ih => rw [valsToJson]; simp [ih]

theorem valFieldsToJson_eq_map (fields : List (String × Val)) :
    valFieldsToJson fields = fields.map (fun p => (p.1, val_to_json p.2)) := by
  induction fields with
  | nil => rw [valFieldsToJson]; rfl
  | cons hd rest ih =>
    cases hd with
    | mk a b => rw [valFieldsToJson]; simp [ih]

theorem objOfPairs_go_nodup (ps acc : List (String × Json))
    (hnd : ((acc ++ ps).map (fun p => p.1)).Nodup) :
    ps.foldl (fun a p => insertAssoc a p.1 p.2) acc = acc ++ ps := by
  induction ps generalizing acc with
  | nil => simp
  | cons hd tl ih =>
    have hmem : ¬ hd.1 ∈ acc.map (fun p => p.1) := by
      simp only [List.map_append, List.nodup_append] at hnd
      intro hin
      exact hnd.2.2 hin (by simp)
    have hins : insertAssoc acc hd.1 hd.2 = acc ++ [hd] := by
      clear hnd ih
      induction acc with
      | nil => simp [insertAssoc]
      | cons a rest ih2 =>
        cases a with
        | mk a1 a2 =>
          rw [insertAssoc]
          simp only [List.map_cons, List.mem_cons, not_or] at hmem
          have hne : ¬ (a1 == hd.1) = true := by
            simpa using fun h => hmem.1 h.symm
          rw [if_neg hne, ih2 hmem.2]
          simp
    rw [List.foldl_cons, hins, ih (acc ++ [hd])]
    · simp
    · simpa using hnd

theorem objOfPairs_nodup (ps : List (String × Json))
    (hnd : (ps.map (fun p => p.1)).Nodup) : objOfPairs ps = ps := by
  have := objOfPairs_go_nodup ps [] (by simpa using hnd)
  simpa [objOfPairs] using this

theorem firstUnexpectedKey_eq_none {kvs : List (String × Json)}
    {fields : List (String × Ty)}
    (h : ∀ kv ∈ kvs, fields.any (fun f => f.1 == kv.1) = true) :
    firstUnexpectedKey kvs fields = none := by
  induction kvs with
  | nil => rw [firstUnexpectedKey]
  | cons hd tl ih =>
    cases hd with
    | mk k v =>
      rw [firstUnexpectedKey]
      have hk := h (k, v) (by simp)
      simp only [hk, if_true]
      exact ih fun kv hkv => h kv (List.mem_cons_of_mem _ hkv)

/-- C10: marshaling a JSON number to a fixed-width WIT integer type
accepts every `u64`-representable (respectively `i64`-representable)
value and silently truncates it to the target width, value taken modulo
`2^width`; in particular the JSON number 300 against a `u8` parameter
yields 44 rather than a marshaling error. -/
theorem c10_integer_truncation :
    (∀ n : Int, 0 ≤ n → n < 2 ^ 64 →
      json_to_val (.num n) .u8 = .ok (.u8 (n.toNat % 2 ^ 8))
        ∧ json_to_val (.num n) .u16 = .ok (.u16 (n.toNat % 2 ^ 16))
        ∧ json_to_val (.num n) .u32 = .ok (.u32 (n.toNat % 2 ^ 32)))
    ∧ (∀ n : Int, -(2 ^ 63) ≤ n → n < 2 ^ 63 →
      json_to_val (.num n) .s8 = .ok (.s8 (toI8 n))
        ∧ json_to_val (.num n) .s16 = .ok (.s16 (toI16 n))
        ∧ json_to_val (.num n) .s32 = .ok (.s32 (toI32 n)))
    ∧ json_to_val (.num 300) .u8 = .ok (.u8 44) := by
  refine ⟨?_, ?_, ?_⟩
  · intro n h1 h2
    have hu : jsonAsU64 n = some n.toNat := by
      unfold jsonAsU64
      rw [if_pos ⟨h1, h2⟩]
    refine ⟨?_, ?_, ?_⟩ <;> (rw [json_to_val.eq_def]; simp [hu]) <;> norm_num
  · intro n h1 h2
    have hi : jsonAsI64 n = some n := by
      unfold jsonAsI64
      rw [if_pos ⟨h1, h2⟩]
    refine ⟨?_, ?_, ?_⟩ <;> (rw [json_to_val.eq_def]; simp [hi])
  · rw [json_to_val.eq_def]
    norm_num [jsonAsU64]
    decide

/-- Witness for C10 at the concrete input of the claim: the JSON number
300 against a `u8` parameter marshals to the native value 44. -/
theorem c10_integer_truncation_witness :
    json_to_val (.num 300) .u8 = .ok (.u8 (Int.toNat 300 % 2 ^ 8)) :=
  (c10_integer_truncation.1 300 (by norm_num) (by norm_num)).1

/-- C9: an invocation whose JSON argument count differs from the declared
parameter count fails before the component is called (for every call
oracle), with a message naming the expected and actual counts; a
one-parameter function called with zero arguments reports "expected 1,
got 0". -/
theorem c9_arity_mismatch :
    (∀ (params : List Ty) (args : List Json)
        (call : List Val → Except String (List Val)) (f : FunctionSpec),
      args.length ≠ params.length →
      invoke_core params args call f =
        .error ("Wrong number of args: expected " ++ toString params.length
          ++ ", got " ++ toString args.length))
    ∧ ∀ (t : Ty) (call : List Val → Except String (List Val)) (f : FunctionSpec),
      invoke_core [t] [] call f =
        .error "Wrong number of args: expected 1, got 0" := by
  constructor
  · intro params args call f h
    unfold invoke_core marshal_args
    rw [if_pos h]
    simp only [toString_string_eq, String.append_empty]
  · intro t call f
    unfold invoke_core marshal_args
    rw [if_pos (by norm_num)]
    simp only [List.length_nil, List.length_cons, toString_string_eq,
      String.append_empty]
    rfl

/-- Witness for C9 at a concrete input: a one-parameter function invoked
with zero arguments. -/
theorem c9_arity_mismatch_witness :
    invoke_core [Ty.s32] [] (fun vs => .ok vs)
      { interface := "ns:pkg/i", function_name := "f", result := none } =
      .error "Wrong number of args: expected 1, got 0" :=
  c9_arity_mismatch.2 Ty.s32 (fun vs => .ok vs)
    { interface := "ns:pkg/i", function_name := "f", result := none }

/-- C6: result handling of a completed invocation — zero native results
yield JSON null; a single error-carrying result with a populated payload
fails the call with a message embedding the rendered JSON of the payload;
an error-carrying result with no payload fails with the generic message;
any other single result marshals directly; and the handling runs on
whatever the call oracle returned. -/
theorem c6_error_result_handling :
    (∀ (params : List Ty) (args : List Json)
        (call : List Val → Except String (List Val)) (f : FunctionSpec)
        (vals : List Val) (results : List Val),
      marshal_args params args = .ok vals → call vals = .ok results →
      invoke_core params args call f = process_results results f)
    ∧ (∀ f : FunctionSpec, process_results [] f = .ok .null)
    ∧ (∀ (f : FunctionSpec) (e : Val),
        process_results [.resultErr (some e)] f =
          .error ("Component returned error: " ++ jsonRender (val_to_json e)))
    ∧ (∀ f : FunctionSpec,
        process_results [.resultErr none] f = .error "Component returned error")
    ∧ (∀ (f : FunctionSpec) (v : Val), (∀ o, v ≠ .resultErr o) →
        process_results [v] f = .ok (val_to_json v)) := by
  refine ⟨?_, ?_, ?_, ?_, ?_⟩
  · intro params args call f vals results h1 h2
    simp [invoke_core, h1, h2]
  · intro f
    simp [process_results]
  · intro f e
    unfold process_results
    simp only [toString_string_eq, String.append_empty]
  · intro f
    rfl
  · intro f v h
    cases v <;> first
    | rfl
    | exact absurd rfl (h _)

/-- Witness for C6 at concrete inputs: a call returning one populated
error result fails with the rendered payload embedded; one returning a
plain number marshals it directly. -/
theorem c6_error_result_handling_witness :
    process_results [.resultErr (some (.string "boom"))]
        { interface := "ns:pkg/i", function_name := "f", result := none } =
      .error ("Component returned error: "
        ++ jsonRender (val_to_json (.string "boom")))
    ∧ process_results [.s32 7]
        { interface := "ns:pkg/i", function_name := "f", result := none } =
      .ok (val_to_json (.s32 7)) :=
  ⟨c6_error_result_handling.2.2.1
      { interface := "ns:pkg/i", function_name := "f", result := none }
      (.string "boom"),
    c6_error_result_handling.2.2.2.2
      { interface := "ns:pkg/i", function_name := "f", result := none }
      (.s32 7) (fun o h => by cases h)⟩

/-- The reconstruction guard of `reconstruct_wit_return` taken: with an
object return schema whose `type` is "object" and whose `properties` key
is present, the slots go through `reconstruct_record`. -/
theorem reconstruct_wit_return_guard (results : List Val) (f : FunctionSpec)
    (so : List (String × Json)) (h1 : f.result = some (.obj so))
    (h2 : lookupAssoc so "type" = some (.str "object"))
    (h3 : (lookupAssoc so "properties").isSome = true) :
    reconstruct_wit_return results f = reconstruct_record results so := by
  unfold reconstruct_wit_return
  rw [h1]
  simp only [h2, h3, Bool.and_true, beq_self_eq_true, if_true]

/-- `reconstruct_record` with a map-valued `properties` key: positional
reconstruction on matching counts, the mismatch error otherwise. -/
theorem reconstruct_record_props (results : List Val)
    (so props : List (String × Json))
    (h3 : lookupAssoc so "properties" = some (.obj props)) :
    reconstruct_record results so =
      if results.length ≠ props.length then
        .error ("Mismatch between wasmtime results (" ++ toString results.length
          ++ ") and record fields (" ++ toString props.length ++ ")")
      else .ok (.obj (objOfPairs ((props.map (fun p => p.1)).zip
        (results.map val_to_json)))) := by
  unfold reconstruct_record
  rw [h3]
  simp only [List.length_map, toString_string_eq, String.append_empty]

/-- `reconstruct_record` with a `properties` key that is not a map fails
with the missing-properties error. -/
theorem reconstruct_record_bad (results : List Val)
    (so : List (String × Json)) (pv : Json)
    (h3 : lookupAssoc so "properties" = some pv)
    (h4 : ∀ props, pv ≠ .obj props) :
    reconstruct_record results so = .error "Record schema missing properties" := by
  unfold reconstruct_record
  rw [h3]
  cases pv with
  | obj props => exact absurd rfl (h4 props)
  | null => rfl
  | bool b => rfl
  | num n => rfl
  | str s => rfl
  | arr xs => rfl

/-- Counterexample for C5: a declared return schema with `type: "object"`
and a `properties` key whose value is the number 7 — not a map. The claim
as stated sorts this with "every other case" and predicts a plain JSON
array; the code instead fails the call with "Record schema missing
properties". -/
theorem c5_slot_reconstruction_counterexample :
    reconstruct_wit_return [.u8 1, .u8 2]
        { interface := "ns:pkg/i", function_name := "f",
          result := some (.obj [("type", .str "object"), ("properties", .num 7)]) } =
      .error "Record schema missing properties" := by
  rfl

/-- C5 as amended: with several result slots, a return schema that is an
object with `type = "object"`, a `properties` key holding a map, and as
many properties as slots reconstructs an object pairing property names
with slots positionally; a slot/field count mismatch fails with the
mismatch error; a schema that is absent, not an object, or failing the
`type`/`properties` guard yields a plain array; and a `properties` key
whose value is not a map fails with the missing-properties error. -/
theorem c5_slot_reconstruction :
    (∀ (results : List Val) (f : FunctionSpec) (so props : List (String × Json)),
      f.result = some (.obj so) →
      lookupAssoc so "type" = some (.str "object") →
      lookupAssoc so "properties" = some (.obj props) →
      (results.length = props.length →
        reconstruct_wit_return results f =
          .ok (.obj (objOfPairs ((props.map (fun p => p.1)).zip
            (results.map val_to_json)))))
      ∧ (results.length ≠ props.length →
        reconstruct_wit_return results f =
          .error ("Mismatch between wasmtime results (" ++ toString results.length
            ++ ") and record fields (" ++ toString props.length ++ ")")))
    ∧ (∀ (results : List Val) (f : FunctionSpec),
        f.result = none →
        reconstruct_wit_return results f = .ok (.arr (results.map val_to_json)))
    ∧ (∀ (results : List Val) (f : FunctionSpec) (j : Json),
        f.result = some j → (∀ so, j ≠ .obj so) →
        reconstruct_wit_return results f = .ok (.arr (results.map val_to_json)))
    ∧ (∀ (results : List Val) (f : FunctionSpec) (so : List (String × Json)),
        f.result = some (.obj so) →
        ((match lookupAssoc so "type" with
          | some (.str s) => s == "object"
          | _ => false) = false
          ∨ (lookupAssoc so "properties").isSome = false) →
        reconstruct_wit_return results f = .ok (.arr (results.map val_to_json)))
    ∧ (∀ (results : List Val) (f : FunctionSpec) (so : List (String × Json))
        (pv : Json),
        f.result = some (.obj so) →
        lookupAssoc so "type" = some (.str "object") →
        lookupAssoc so "properties" = some pv → (∀ props, pv ≠ .obj props) →
        reconstruct_wit_return results f =
          .error "Record schema missing properties") := by
  refine ⟨?_, ?_, ?_, ?_, ?_⟩
  · intro results f so props h1 h2 h3
    rw [reconstruct_wit_return_guard results f so h1 h2 (by rw [h3]; rfl),
      reconstruct_record_props results so props h3]
    constructor
    · intro hlen
      rw [if_neg (fun h => h hlen)]
    · intro hlen
      rw [if_pos hlen]
  · intro results f h1
    unfold reconstruct_wit_return
    rw [h1]
  · intro results f j h1 h2
    unfold reconstruct_wit_return
    rw [h1]
    cases j with
    | obj so => exact absurd rfl (h2 so)
    | null => rfl
    | bool b => rfl
    | num n => rfl
    | str s => rfl
    | arr xs => rfl
  · intro results f so h1 h2
    unfold reconstruct_wit_return
    rw [h1]
    rcases h2 with h2 | h2 <;> simp [h2]
  · intro results f so pv h1 h2 h3 h4
    rw [reconstruct_wit_return_guard results f so h1 h2 (by rw [h3]; rfl),
      reconstruct_record_bad results so pv h3 h4]

/-- Witness for C5 at concrete inputs: two slots against a two-property
object schema reconstruct as an object pairing property names with slots
positionally. -/
theorem c5_slot_reconstruction_witness :
    reconstruct_wit_return [.u8 1, .string "x"]
        { interface := "ns:pkg/i", function_name := "f",
          result := some (.obj [("type", .str "object"),
            ("properties", .obj [("a", .obj [("type", .str "number")]),
                                 ("b", .obj [("type", .str "string")])])]) } =
      .ok (.obj (objOfPairs (([("a", Json.obj [("type", .str "number")]),
        ("b", Json.obj [("type", .str "string")])].map (fun p => p.1)).zip
          ([Val.u8 1, Val.string "x"].map val_to_json)))) := by
  exact (c5_slot_reconstruction.1 [.u8 1, .string "x"]
    { interface := "ns:pkg/i", function_name := "f",
      result := some (.obj [("type", .str "object"),
        ("properties", .obj [("a", .obj [("type", .str "number")]),
                             ("b", .obj [("type", .str "string")])])]) }
    [("type", .str "object"),
     ("properties", .obj [("a", .obj [("type", .str "number")]),
                          ("b", .obj [("type", .str "string")])])]
    [("a", .obj [("type", .str "number")]),
     ("b", .obj [("type", .str "string")])]
    rfl (by rfl) (by rfl)).1 (by rfl)

theorem convertJsonList_isOk (xs : List Json) :
    (convertJsonList xs).isOk
      = xs.all (fun x => (convert_json_value_to_string x).isOk) := by
  induction xs with
  | nil =>
    rw [convertJsonList]
    rfl
  | cons x rest ih =>
    rw [convertJsonList]
    cases h : convert_json_value_to_string x with
    | error e =>
      simp only [List.all_cons, h]
      rfl
    | ok s =>
      cases h2 : convertJsonList rest with
      | error e =>
        simp only [List.all_cons, h, ← ih, h2]
        rfl
      | ok ss =>
        simp only [List.all_cons, h, ← ih, h2]
        rfl

/-- C8: configuration-value conversion — strings pass through unchanged,
numbers and booleans stringify, arrays become comma-joined strings of
their converted elements, objects and null are rejected with an error
(anywhere: an array converts successfully exactly when all of its
elements do, and the property list converts exactly when every value
does); the empty configuration map never fails conversion and composes
into the tool whenever the external generator and plug succeed. -/
theorem c8_config_synthesis :
    (∀ s, convert_json_value_to_string (.str s) = .ok s)
    ∧ (∀ n : Int, convert_json_value_to_string (.num n) = .ok (toString n))
    ∧ convert_json_value_to_string (.bool true) = .ok "true"
    ∧ convert_json_value_to_string (.bool false) = .ok "false"
    ∧ (∀ xs ss, convertJsonList xs = .ok ss →
        convert_json_value_to_string (.arr xs) =
          .ok (String.intercalate "," ss))
    ∧ (∀ kvs, convert_json_value_to_string (.obj kvs) =
        .error "Nested objects not supported in config")
    ∧ convert_json_value_to_string .null =
        .error "Null values not supported in config"
    ∧ (∀ xs, (convert_json_value_to_string (.arr xs)).isOk
        = xs.all (fun x => (convert_json_value_to_string x).isOk))
    ∧ (∀ config : List (String × Json), (convertConfigProps config).isOk
        = config.all (fun kv => (convert_json_value_to_string kv.2).isOk))
    ∧ (∀ (cw : ComposerWorld) (tool_bytes cfg_bytes out : Bytes),
        cw.createComponent [] = .ok cfg_bytes →
        cw.plug cfg_bytes tool_bytes = .ok out →
        compose_tool_with_config cw tool_bytes [] = .ok out) := by
  refine ⟨?_, ?_, ?_, ?_, ?_, ?_, ?_, ?_, ?_, ?_⟩
  · intro s
    rw [convert_json_value_to_string.eq_def]
  · intro n
    rw [convert_json_value_to_string.eq_def]
  · rw [convert_json_value_to_string.eq_def]
    rfl
  · rw [convert_json_value_to_string.eq_def]
    rfl
  · intro xs ss h
    rw [convert_json_value_to_string.eq_def]
    show (match convertJsonList xs with
      | .ok string_items => Except.ok (String.intercalate "," string_items)
      | .error e => Except.error e) = Except.ok (String.intercalate "," ss)
    rw [h]
  · intro kvs
    rw [convert_json_value_to_string.eq_def]
  · rw [convert_json_value_to_string.eq_def]
  · intro xs
    rw [convert_json_value_to_string.eq_def]
    show (match convertJsonList xs with
      | .ok string_items => Except.ok (String.intercalate "," string_items)
      | .error e => Except.error e).isOk
      = xs.all (fun x => (convert_json_value_to_string x).isOk)
    rw [← convertJsonList_isOk]
    cases h : convertJsonList xs with
    | error e => rfl
    | ok ss => rfl
  · intro config
    induction config with
    | nil => rfl
    | cons kv rest ih =>
      cases kv with
      | mk k v =>
        rw [convertConfigProps]
        cases h : convert_json_value_to_string v with
        | error e =>
          simp only [List.all_cons, h]
          rfl
        | ok s =>
          cases h2 : convertConfigProps rest with
          | error e =>
            simp only [List.all_cons, h, ← ih, h2]
            rfl
          | ok ps =>
            simp only [List.all_cons, h, ← ih, h2]
            rfl
  · intro cw tool_bytes cfg_bytes out h1 h2
    unfold compose_tool_with_config create_config_component
    rw [show convertConfigProps [] = Except.ok [] from rfl]
    show (match (match cw.createComponent ([] : List (String × String)) with
        | .ok b => (Except.ok b : Except String Bytes)
        | .error e =>
          .error ("Failed to create config component: " ++ toString e ++ "")) with
      | .error e => Except.error e
      | .ok config_component_bytes => cw.plug config_component_bytes tool_bytes)
      = .ok out
    rw [h1]
    show cw.plug cfg_bytes tool_bytes = .ok out
    exact h2

/-- Witness for C8 at concrete inputs: a mixed scalar array converts to
its comma-joined string form, and composing with the empty map succeeds
for a composer world whose generator and plug succeed. -/
theorem c8_config_synthesis_witness :
    convert_json_value_to_string (.arr [.str "a", .num 2, .bool true]) =
      .ok (String.intercalate "," ["a", "2", "true"])
    ∧ compose_tool_with_config
        { createComponent := fun _ => .ok [7], plug := fun a b => .ok (a ++ b) }
        [1, 2] [] = .ok ([7] ++ [1, 2]) :=
  ⟨c8_config_synthesis.2.2.2.2.1 [.str "a", .num 2, .bool true]
      ["a", "2", "true"]
      (by simp [convertJsonList, convert_json_value_to_string]; rfl),
    c8_config_synthesis.2.2.2.2.2.2.2.2.2
      { createComponent := fun _ => .ok [7], plug := fun a b => .ok (a ++ b) }
      [1, 2] [7] ([7] ++ [1, 2]) rfl rfl⟩

/-- Counterexample for C4: a WIT record with a single field `x` of option
type. The claim says `x` is omitted from `required` because its type is
optional; the reflected schema lists `x` in `required` regardless. -/
theorem c4_record_required_counterexample :
    wit_type_to_json_schema (.record [("x", .option .string)]) =
      .ok (.obj [("type", .str "object"),
        ("properties", .obj [("x", .obj [("anyOf",
          .arr [.obj [("type", .str "string")], .obj [("type", .str "null")]])])]),
        ("required", .arr [.str "x"]),
        ("additionalProperties", .bool false)])
    ∧ is_optional_type (.option .string) = true := by
  constructor
  · simp [wit_type_to_json_schema, schemaOfFields, objOfPairs, insertAssoc]
  · rfl

/-- C4 as amended: the schema of a WIT record has the claimed
`{type: object, properties, required, additionalProperties: false}`
shape, but its `required` list names every field, optional-typed fields
included; the omit-iff-optional rule applies instead to the function's
top-level input schema, whose `required` lists exactly the parameters
whose type is not optional. -/
theorem c4_record_required :
    (∀ (fields : List (String × WitType)) (props : List (String × Json)),
      schemaOfFields fields = .ok props →
      wit_type_to_json_schema (.record fields) =
        .ok (.obj [("type", .str "object"),
          ("properties", .obj (objOfPairs props)),
          ("required", .arr ((fields.map (fun f => f.1)).map .str)),
          ("additionalProperties", .bool false)]))
    ∧ (∀ (func : ComponentFunction) (bytes : Bytes)
        (requires_disambiguation : Bool) (ct : ComponentTool)
        (props : List (String × Json)),
      function_to_component_tool func bytes requires_disambiguation = .ok ct →
      buildParamProps func.params = .ok props →
      ct.input_schema = .obj [("type", .str "object"),
        ("properties", .obj (objOfPairs props)),
        ("required", .arr
          (((func.params.filter (fun p => ! is_optional_type p.wit_type)).map
            (fun p => p.name)).map .str)),
        ("additionalProperties", .bool false)]) := by
  constructor
  · intro fields props h
    rw [wit_type_to_json_schema.eq_def]
    show (match schemaOfFields fields with
      | .error e => Except.error e
      | .ok properties =>
        Except.ok (Json.obj [("type", .str "object"),
          ("properties", .obj (objOfPairs properties)),
          ("required", .arr ((fields.map (fun f : String × WitType => f.1)).map .str)),
          ("additionalProperties", .bool false)])) = _
    rw [h]
  · intro func bytes requires_disambiguation ct props h hpr
    unfold function_to_component_tool at h
    cases hv1 : validateParamTypes func.params with
    | error e =>
      simp only [hv1] at h
      cases h
    | ok u1 =>
      cases hv2 : validateTypeList func.returns with
      | error e =>
        simp only [hv1, hv2] at h
        cases h
      | ok u2 =>
        simp only [hv1, hv2, hpr, Except.ok.injEq] at h
        subst h
        rfl

/-- Witness for C4 at a concrete input: a two-field record (one optional
field) lists both fields in `required`, while the input schema of a
function with the same two parameters requires only the non-optional
one. -/
theorem c4_record_required_witness :
    wit_type_to_json_schema (.record [("a", .u8), ("b", .option .u8)]) =
      .ok (.obj [("type", .str "object"),
        ("properties", .obj (objOfPairs
          [("a", .obj [("type", .str "number"), ("minimum", .num 0),
                       ("maximum", .num 255)]),
           ("b", .obj [("anyOf", .arr [.obj [("type", .str "number"),
             ("minimum", .num 0), ("maximum", .num 255)],
             .obj [("type", .str "null")]])])])),
        ("required", .arr [.str "a", .str "b"]),
        ("additionalProperties", .bool false)]) := by
  have h := c4_record_required.1 [("a", .u8), ("b", .option .u8)]
    [("a", .obj [("type", .str "number"), ("minimum", .num 0),
                 ("maximum", .num 255)]),
     ("b", .obj [("anyOf", .arr [.obj [("type", .str "number"),
       ("minimum", .num 0), ("maximum", .num 255)],
       .obj [("type", .str "null")]])])]
    (by simp [schemaOfFields, wit_type_to_json_schema, schemaOfResultSide])
  simpa using h

/-- Concrete world for the capability-coverage counterexample: component
`a.wasm` exports `ns:pkg/iface` with no imports; component
`b.wasm` imports exactly `ns:pkg/iface`; composing them succeeds. -/
def W1 : World where
  readFile := fun path =>
    if path == "a.wasm" then .ok [0]
    else if path == "b.wasm" then .ok [1]
    else .error "no such file"
  parse := fun bytes _ =>
    if bytes == [0] then .ok ([], ["ns:pkg/iface"], none)
    else if bytes == [1] then .ok (["ns:pkg/iface"], ["x:y/z"], none)
    else .error "bad bytes"
  composeWithConfig := fun _ _ => .error "unused"
  composeComponents := fun a b =>
    if a == [1] && b == [0] then .ok [2] else .error "incompatible"

/-- Capability definition of component `a` (exposed, no dependencies). -/
def defA1 : CapabilityDefinition :=
  { name := "a", uri := "a.wasm", exposed := true, capabilities := [],
    config := none }

/-- Tool definition of component `b`, depending on capability `a`. -/
def defB1 : ToolDefinition :=
  { name := "b", uri := "b.wasm", exposed := true, capabilities := ["a"],
    config := none }

/-- The spec the registry builder stores for component `a`. -/
def specA1 : ComponentSpec :=
  { name := "a", bytes := [0], imports := [], exports := ["ns:pkg/iface"],
    runtime_capabilities := [], functions := none }

/-- The spec the registry builder stores for tool `b`: its import
`ns:pkg/iface` survives composition while its runtime-capability set is
empty. -/
def specB1 : ComponentSpec :=
  { name := "b", bytes := [2], imports := ["ns:pkg/iface"],
    exports := ["x:y/z"], runtime_capabilities := [], functions := none }

/-- The capability registry the build produces for `defA1`. -/
def reg1val : CapabilityRegistry :=
  { runtime_capabilities := [],
    component_capabilities :=
      [("a", { component := specA1, exposed := true,
               exports := ["ns:pkg/iface"] })] }

/-- Counterexample for C1: the full registry build stores tool `b`
with import `ns:pkg/iface` still in its import list and an empty resolved
runtime-capability set, so the union of runtime-capability interfaces is
empty and does not cover the import — the import is covered by the
composed component capability `a` instead. -/
theorem c1_capability_coverage_counterexample :
    build_registries W1 [defA1] [defB1] = .ok (reg1val, [("b", specB1)])
    ∧ specB1.imports = ["ns:pkg/iface"]
    ∧ runtime_interface_union reg1val specB1.runtime_capabilities = [] := by
  refine ⟨?_, rfl, rfl⟩
  rfl

/-- Success inversion of one monadic bind step over `Except`. -/
theorem except_bind_ok {α β : Type} {x : Except String α}
    {f : α → Except String β} {b : β} (h : x >>= f = .ok b) :
    ∃ a, x = .ok a ∧ f a = .ok b := by
  cases x with
  | error e => simp [Bind.bind, Except.bind] at h
  | ok a => exact ⟨a, rfl, by simpa [Bind.bind, Except.bind] using h⟩

/-- C1 as amended: every import of a spec stored by
`process_component_core` is covered by the expected-interface set of the
requested capabilities — the union of the interface lists of requested
runtime capabilities and the export lists of requested component
capabilities — rather than by the runtime-capability union alone. -/
theorem c1_capability_coverage :
    ∀ (w : World) (name uri : String) (config : Option (List (String × Json)))
      (capabilities : List String) (reg : CapabilityRegistry) (is_t : Bool)
      (spec : ComponentSpec),
      process_component_core w name uri config capabilities reg is_t = .ok spec →
      ∀ imp ∈ spec.imports,
        imp ∈ get_expected_interfaces_from_capabilities capabilities reg is_t := by
  intro w name uri config capabilities reg is_t spec h imp himp
  unfold process_component_core at h
  obtain ⟨path, hpath, h⟩ := except_bind_ok h
  obtain ⟨bytes0, hrf, h⟩ := except_bind_ok h
  obtain ⟨triple, hp, h⟩ := except_bind_ok h
  obtain ⟨imports0, exports, functions⟩ := triple
  obtain ⟨pair, hcs, h⟩ := except_bind_ok h
  obtain ⟨bytes1, imports⟩ := pair
  obtain ⟨u, hv, h⟩ := except_bind_ok h
  obtain ⟨out, hcl, h⟩ := except_bind_ok h
  obtain ⟨bytes2, remaining, allRt⟩ := out
  simp only [Except.ok.injEq] at h
  subst h
  simp only at himp
  simp only [validate_imports] at hv
  cases hf : imports.find?
      (fun i => ! (get_expected_interfaces_from_capabilities
        capabilities reg is_t).contains i) with
  | some bad => rw [hf] at hv; cases hv
  | none =>
    have hall := List.find?_eq_none.mp hf imp himp
    have hc : (get_expected_interfaces_from_capabilities
        capabilities reg is_t).contains imp = true := by
      simpa using hall
    simpa using hc

/-- Witness for C1's amended statement at the counterexample world: the
surviving import of stored tool `b` is covered by the export list of the
requested component capability `a`. -/
theorem c1_capability_coverage_witness :
    "ns:pkg/iface" ∈ get_expected_interfaces_from_capabilities ["a"] reg1val true :=
  c1_capability_coverage W1 "b" "b.wasm" none ["a"] reg1val true specB1
    (by rfl) "ns:pkg/iface" (by simp [specB1])

/-- Concrete world where every component reads and parses trivially
(no imports, no exports); dependency failures then come only from missing
capability names. -/
def W0 : World where
  readFile := fun _ => .ok []
  parse := fun _ _ => .ok ([], [], none)
  composeWithConfig := fun _ _ => .error "unused"
  composeComponents := fun _ _ => .error "unused"

/-- An exposed capability definition with an unsatisfiable dependency. -/
def defC : CapabilityDefinition :=
  { name := "c", uri := "c.wasm", exposed := true,
    capabilities := ["missing"], config := none }

/-- An exposed tool definition with an unsatisfiable capability. -/
def defD : ToolDefinition :=
  { name := "d", uri := "d.wasm", exposed := true,
    capabilities := ["missing"], config := none }

/-- Lookup in the tool-registry fold is not changed by definitions with
other names. -/
theorem tool_fold_untouched (w : World) (reg : CapabilityRegistry) :
    ∀ (defs : List ToolDefinition) (acc : List (String × ComponentSpec))
      (n : String), ¬ n ∈ defs.map (fun x => x.name) →
      lookupAssoc (defs.foldl (fun tool_registry d =>
        match process_tool_definition w d reg with
        | .ok spec => insertAssoc tool_registry d.name spec
        | .error _ => tool_registry) acc) n = lookupAssoc acc n := by
  intro defs
  induction defs with
  | nil => intro acc n _; rfl
  | cons d2 rest ih =>
    intro acc n hn
    simp only [List.map_cons, List.mem_cons, not_or] at hn
    rw [List.foldl_cons, ih _ n hn.2]
    cases hp : process_tool_definition w d2 reg with
    | ok spec =>
      simp only [hp]
      exact insertAssoc_lookup_other acc d2.name n spec hn.1
    | error e => simp only [hp]

/-- Lookup of one definition's name in the tool-registry fold: the stored
spec when its processing succeeded, nothing when it failed, provided the
definition names are distinct and the name was not already bound. -/
theorem tool_fold_lookup (w : World) (reg : CapabilityRegistry) :
    ∀ (defs : List ToolDefinition) (acc : List (String × ComponentSpec))
      (d : ToolDefinition), d ∈ defs →
      (defs.map (fun x => x.name)).Nodup →
      lookupAssoc acc d.name = none →
      lookupAssoc (defs.foldl (fun tool_registry d2 =>
        match process_tool_definition w d2 reg with
        | .ok spec => insertAssoc tool_registry d2.name spec
        | .error _ => tool_registry) acc) d.name =
        (process_tool_definition w d reg).toOption := by
  intro defs
  induction defs with
  | nil => intro acc d hd; simp at hd
  | cons d2 rest ih =>
    intro acc d hd hnd hacc
    simp only [List.map_cons, List.nodup_cons] at hnd
    rcases List.mem_cons.mp hd with h1 | h1
    · subst h1
      have hnotin : ¬ d.name ∈ rest.map (fun x => x.name) := hnd.1
      rw [List.foldl_cons, tool_fold_untouched w reg rest _ d.name hnotin]
      cases hp : process_tool_definition w d reg with
      | ok spec =>
        simp only [hp, Except.toOption]
        exact insertAssoc_lookup_self acc d.name spec
      | error e =>
        simp only [hp, Except.toOption]
        exact hacc
    · have hne : ¬ d.name = d2.name := by
        intro he
        exact hnd.1 (he ▸ List.mem_map.mpr ⟨d, h1, rfl⟩)
      rw [List.foldl_cons]
      refine ih _ d h1 hnd.2 ?_
      cases hp : process_tool_definition w d2 reg with
      | ok spec =>
        simp only [hp]
        rw [insertAssoc_lookup_other acc d2.name d.name spec hne]
        exact hacc
      | error e => simpa only [hp] using hacc

/-- One deferral step that exhausts the queue: when the retry counter
reaches the current queue length, the loop aborts with the aggregated
error over the still-pending definitions. -/
theorem build_registry_loop_stall (w : World) (b : CapabilityRegistryBuilder)
    (cf fuel : Nat) (b2 : CapabilityRegistryBuilder) (hne : b.pending ≠ [])
    (htn : try_next w b = .ok (some false, b2))
    (hge : cf + 1 ≥ b2.pending.length) :
    (build_registry_loop w b cf (fuel + 1)).1 =
      .error (aggregate_errors b2.pending b2.last_errors) := by
  rw [build_registry_loop]
  rw [if_neg (by simpa [List.isEmpty_iff] using hne)]
  rw [htn]
  show (if cf + 1 ≥ b2.pending.length then
      ((Except.error (aggregate_errors b2.pending b2.last_errors) :
        Except String CapabilityRegistry), 1)
    else ((build_registry_loop w b2 (cf + 1) fuel).1,
      (build_registry_loop w b2 (cf + 1) fuel).2 + 1)).1 = _
  rw [if_pos hge]

/-- A non-retryable resolution error aborts the loop with that error. -/
theorem build_registry_loop_abort (w : World) (b : CapabilityRegistryBuilder)
    (cf fuel : Nat) (e : String) (hne : b.pending ≠ [])
    (htn : try_next w b = .error e) :
    (build_registry_loop w b cf (fuel + 1)).1 = .error e := by
  rw [build_registry_loop]
  rw [if_neg (by simpa [List.isEmpty_iff] using hne)]
  rw [htn]

/-- The loop performs at most `fuel` resolution attempts. -/
theorem build_registry_loop_count (w : World) :
    ∀ (fuel : Nat) (b : CapabilityRegistryBuilder) (cf : Nat),
      (build_registry_loop w b cf fuel).2 ≤ fuel := by
  intro fuel
  induction fuel with
  | zero => intro b cf; exact Nat.le_refl 0
  | succ fuel ih =>
    intro b cf
    rw [build_registry_loop]
    by_cases hemp : b.pending.isEmpty
    · rw [if_pos hemp]
      exact Nat.zero_le _
    · rw [if_neg hemp]
      cases htn : try_next w b with
      | error e =>
        show (1 : Nat) ≤ fuel + 1
        omega
      | ok pr =>
        obtain ⟨r, b2⟩ := pr
        cases r with
        | none =>
          show (1 : Nat) ≤ fuel + 1
          omega
        | some flag =>
          cases flag with
          | true =>
            show (build_registry_loop w b2 0 fuel).2 + 1 ≤ fuel + 1
            exact Nat.succ_le_succ (ih b2 0)
          | false =>
            show (if cf + 1 ≥ b2.pending.length then
                ((Except.error (aggregate_errors b2.pending b2.last_errors) :
                  Except String CapabilityRegistry), 1)
              else ((build_registry_loop w b2 (cf + 1) fuel).1,
                (build_registry_loop w b2 (cf + 1) fuel).2 + 1)).2 ≤ fuel + 1
            by_cases hge : cf + 1 ≥ b2.pending.length
            · rw [if_pos hge]
              show (1 : Nat) ≤ fuel + 1
              omega
            · rw [if_neg hge]
              show (build_registry_loop w b2 (cf + 1) fuel).2 + 1 ≤ fuel + 1
              exact Nat.succ_le_succ (ih b2 (cf + 1))

/-- Counterexample for C3: an exposed capability definition whose
dependency is unsatisfiable does not degrade to a skip-with-warning — it
aborts the entire registry build with the aggregated error. -/
theorem c3_failure_asymmetry_counterexample :
    defC.exposed = true
    ∧ build_registries W0 [defC] [] =
      .error ("Cannot resolve capability dependencies:\n'c': Capability 'c' requested unavailable dependency 'missing'") :=
  ⟨rfl, rfl⟩

/-- C3 as amended: the skip-versus-abort asymmetry separates tool
definitions from capability definitions, not exposed from unexposed ones.
The tool-registry build never aborts: it returns the map holding exactly
the tools whose processing succeeded (a failed tool is skipped). A
capability definition's failure — whatever its exposure flag — aborts the
capability-registry build: a stalled retry queue aborts with the
aggregated error listing every unresolved name and its last recorded
failure reason, and a non-retryable error aborts immediately with that
error. -/
theorem c3_failure_asymmetry :
    (∀ (w : World) (defs : List ToolDefinition) (reg : CapabilityRegistry),
      ∃ m, create_tool_registry w defs reg = .ok m)
    ∧ (∀ (w : World) (defs : List ToolDefinition) (reg : CapabilityRegistry)
        (d : ToolDefinition) (m : List (String × ComponentSpec)),
      create_tool_registry w defs reg = .ok m →
      d ∈ defs → (defs.map (fun x => x.name)).Nodup →
      lookupAssoc m d.name = (process_tool_definition w d reg).toOption)
    ∧ (∀ (w : World) (b : CapabilityRegistryBuilder) (cf fuel : Nat)
        (b2 : CapabilityRegistryBuilder),
      b.pending ≠ [] → try_next w b = .ok (some false, b2) →
      cf + 1 ≥ b2.pending.length →
      (build_registry_loop w b cf (fuel + 1)).1 =
        .error (aggregate_errors b2.pending b2.last_errors))
    ∧ (∀ (w : World) (b : CapabilityRegistryBuilder) (cf fuel : Nat) (e : String),
      b.pending ≠ [] → try_next w b = .error e →
      (build_registry_loop w b cf (fuel + 1)).1 = .error e) := by
  refine ⟨?_, ?_, ?_, ?_⟩
  · intro w defs reg
    exact ⟨_, rfl⟩
  · intro w defs reg d m hm hd hnd
    have : m = defs.foldl (fun tool_registry d2 =>
        match process_tool_definition w d2 reg with
        | .ok spec => insertAssoc tool_registry d2.name spec
        | .error _ => tool_registry) [] := by
      unfold create_tool_registry at hm
      simpa using hm.symm
    subst this
    exact tool_fold_lookup w reg defs [] d hd hnd rfl
  · intro w b cf fuel b2 hne htn hge
    exact build_registry_loop_stall w b cf fuel b2 hne htn hge
  · intro w b cf fuel e hne htn
    exact build_registry_loop_abort w b cf fuel e hne htn

/-- Witness for C3 at concrete inputs: a failing tool definition is
skipped (the registry comes back empty, not an error), while a failing
capability definition aborts the build with the aggregated error. -/
theorem c3_failure_asymmetry_witness :
    lookupAssoc [] defD.name =
      (process_tool_definition W0 defD (CapabilityRegistry.mk [] [])).toOption
    ∧ (build_registry_loop W0
        { runtime_capabilities := [], component_capabilities := [],
          pending := [defC], last_errors := [] } 0 1).1 =
      .error (aggregate_errors [defC]
        [("c", "Capability 'c' requested unavailable dependency 'missing'")]) :=
  ⟨c3_failure_asymmetry.2.1 W0 [defD] (CapabilityRegistry.mk [] []) defD []
      (by rfl) (by simp) (by simp),
    c3_failure_asymmetry.2.2.1 W0
      { runtime_capabilities := [], component_capabilities := [],
        pending := [defC], last_errors := [] } 0 0
      { runtime_capabilities := [], component_capabilities := [],
        pending := [defC],
        last_errors :=
          [("c", "Capability 'c' requested unavailable dependency 'missing'")] }
      (by simp) (by rfl) (by simp)⟩

/-- C7: the registry builder's retry loop always terminates within the
attempt budget — at most `pending.len() * pending.len()` resolution
attempts, the budget computed once from the initial queue — and a run of
consecutive deferrals reaching the current queue length without progress
stops retrying and reports the remaining definitions through the
aggregated error. -/
theorem c7_retry_termination :
    (∀ (w : World) (b : CapabilityRegistryBuilder) (cf fuel : Nat),
      (build_registry_loop w b cf fuel).2 ≤ fuel)
    ∧ (∀ (w : World) (b : CapabilityRegistryBuilder),
      (build_registry_loop w b 0 (b.pending.length * b.pending.length)).2
        ≤ b.pending.length * b.pending.length)
    ∧ (∀ (w : World) (b : CapabilityRegistryBuilder) (cf fuel : Nat)
        (b2 : CapabilityRegistryBuilder),
      b.pending ≠ [] → try_next w b = .ok (some false, b2) →
      cf + 1 ≥ b2.pending.length →
      (build_registry_loop w b cf (fuel + 1)).1 =
        .error (aggregate_errors b2.pending b2.last_errors)) := by
  refine ⟨?_, ?_, ?_⟩
  · intro w b cf fuel
    exact build_registry_loop_count w fuel b cf
  · intro w b
    exact build_registry_loop_count w (b.pending.length * b.pending.length) b 0
  · intro w b cf fuel b2 hne htn hge
    exact build_registry_loop_stall w b cf fuel b2 hne htn hge

/-- Witness for C7 at a concrete input: the one-definition stalled build
uses its whole budget of one attempt and aborts with the aggregated
error. -/
theorem c7_retry_termination_witness :
    (build_registry_loop W0
        { runtime_capabilities := [], component_capabilities := [],
          pending := [defC], last_errors := [] } 0 1).2 ≤ 1
    ∧ (build_registry_loop W0
        { runtime_capabilities := [], component_capabilities := [],
          pending := [defC], last_errors := [] } 0 1).1 =
      .error (aggregate_errors [defC]
        [("c", "Capability 'c' requested unavailable dependency 'missing'")]) :=
  ⟨c7_retry_termination.1 W0
      { runtime_capabilities := [], component_capabilities := [],
        pending := [defC], last_errors := [] } 0 1,
    c7_retry_termination.2.2 W0
      { runtime_capabilities := [], component_capabilities := [],
        pending := [defC], last_errors := [] } 0 0
      { runtime_capabilities := [], component_capabilities := [],
        pending := [defC],
        last_errors :=
          [("c", "Capability 'c' requested unavailable dependency 'missing'")] }
      (by simp) (by rfl) (by simp)⟩

/-- Counterexample for C2: the JSON string "go" conforms to the reflected
schema of the enum shape with cases "go" and "stop", but `json_to_val`
has no marshaling arm for enums (nor variants, results or flags) and
rejects it with the type-mismatch error, so no native value exists whose
marshaling back could be schema-equivalent to the input. -/
theorem c2_roundtrip_counterexample :
    jsonConforms (.str "go") (.enum ["go", "stop"]) = true
    ∧ json_to_val (.str "go") (.enum ["go", "stop"]) =
      .error "Type mismatch: cannot convert JSON value to WIT type" := by
  constructor
  · rw [jsonConforms.eq_def]
    decide
  · rw [json_to_val.eq_def]

theorem jsonRecordToVals_cons_found (kvs : List (String × Json)) (fname : String)
    (fty : Ty) (rest : List (String × Ty)) (jv : Json)
    (hjv : lookupAssoc kvs fname = some jv) :
    jsonRecordToVals kvs ((fname, fty) :: rest) =
      (match json_to_val jv fty with
       | .error e => Except.error e
       | .ok v =>
         match jsonRecordToVals kvs rest with
         | .ok fs => Except.ok ((fname, v) :: fs)
         | .error e => Except.error e) := by
  cases fty <;>
    (first
      | rw [jsonRecordToVals.eq_2]
      | rw [jsonRecordToVals.eq_3 _ _ _ _ (by nofun)]
     split
     next jv2 hjv2 =>
       rw [hjv] at hjv2
       injection hjv2 with h2
       rw [h2]
     next hjv2 =>
       rw [hjv] at hjv2
       exact Option.noConfusion hjv2)

theorem and_true_split {a b : Bool} (h : (a && b) = true) :
    a = true ∧ b = true := by
  simp only [Bool.and_eq_true] at h
  exact h

theorem toI8_eq_self (n : Int) (h1 : -128 ≤ n) (h2 : n ≤ 127) : toI8 n = n := by
  simp only [toI8]
  split <;> omega

theorem toI16_eq_self (n : Int) (h1 : -32768 ≤ n) (h2 : n ≤ 32767) :
    toI16 n = n := by
  simp only [toI16]
  split <;> omega

theorem toI32_eq_self (n : Int) (h1 : -2147483648 ≤ n) (h2 : n ≤ 2147483647) :
    toI32 n = n := by
  simp only [toI32]
  split <;> omega

theorem roundtrip_gen : ∀ (n : Nat) (t : Ty), sizeOf t ≤ n → ∀ (j : Json),
    tySupported t = true → jsonConforms j t = true →
    ∃ v, json_to_val j t = .ok v ∧ JsonEquiv (val_to_json v) j := by
  intro n
  induction n using Nat.strong_induction_on with
  | _ n ih =>
    intro t ht j hs hc
    cases t with
    | float32 => rw [tySupported.eq_def] at hs; exact Bool.noConfusion hs
    | float64 => rw [tySupported.eq_def] at hs; exact Bool.noConfusion hs
    | variant cases2 => rw [tySupported.eq_def] at hs; exact Bool.noConfusion hs
    | enum cases2 => rw [tySupported.eq_def] at hs; exact Bool.noConfusion hs
    | result o e => rw [tySupported.eq_def] at hs; exact Bool.noConfusion hs
    | flags names => rw [tySupported.eq_def] at hs; exact Bool.noConfusion hs
    | own => rw [tySupported.eq_def] at hs; exact Bool.noConfusion hs
    | borrow => rw [tySupported.eq_def] at hs; exact Bool.noConfusion hs
    | bool =>
      cases j with
      | bool b =>
        refine ⟨.bool b, by rw [json_to_val.eq_def], ?_⟩
        rw [show val_to_json (.bool b) = .bool b from by rw [val_to_json]]
        exact .bool b
      | null => rw [jsonConforms.eq_def] at hc; exact Bool.noConfusion hc
      | num x => rw [jsonConforms.eq_def] at hc; exact Bool.noConfusion hc
      | str x => rw [jsonConforms.eq_def] at hc; exact Bool.noConfusion hc
      | arr x => rw [jsonConforms.eq_def] at hc; exact Bool.noConfusion hc
      | obj x => rw [jsonConforms.eq_def] at hc; exact Bool.noConfusion hc
    | string =>
      cases j with
      | str s =>
        refine ⟨.string s, by rw [json_to_val.eq_def], ?_⟩
        rw [show val_to_json (.string s) = .str s from by rw [val_to_json]]
        exact .str s
      | null => rw [jsonConforms.eq_def] at hc; exact Bool.noConfusion hc
      | num x => rw [jsonConforms.eq_def] at hc; exact Bool.noConfusion hc
      | bool x => rw [jsonConforms.eq_def] at hc; exact Bool.noConfusion hc
      | arr x => rw [jsonConforms.eq_def] at hc; exact Bool.noConfusion hc
      | obj x => rw [jsonConforms.eq_def] at hc; exact Bool.noConfusion hc
    | u8 =>
      cases j with
      | num x =>
        rw [jsonConforms.eq_def] at hc
        obtain ⟨h0, h1⟩ := of_decide_eq_true hc
        refine ⟨.u8 (x.toNat % 256), ?_, ?_⟩
        · have hu : jsonAsU64 x = some x.toNat := by
            unfold jsonAsU64
            rw [if_pos ⟨h0, by omega⟩]
          rw [json_to_val.eq_def]
          simp only [hu]
        · rw [show val_to_json (.u8 (x.toNat % 256)) = .num x from by
            rw [val_to_json]
            congr 1
            omega]
          exact .num x
      | null => rw [jsonConforms.eq_def] at hc; exact Bool.noConfusion hc
      | bool x => rw [jsonConforms.eq_def] at hc; exact Bool.noConfusion hc
      | str x => rw [jsonConforms.eq_def] at hc; exact Bool.noConfusion hc
      | arr x => rw [jsonConforms.eq_def] at hc; exact Bool.noConfusion hc
      | obj x => rw [jsonConforms.eq_def] at hc; exact Bool.noConfusion hc
    | u16 =>
      cases j with
      | num x =>
        rw [jsonConforms.eq_def] at hc
        obtain ⟨h0, h1⟩ := of_decide_eq_true hc
        refine ⟨.u16 (x.toNat % 65536), ?_, ?_⟩
        · have hu : jsonAsU64 x = some x.toNat := by
            unfold jsonAsU64
            rw [if_pos ⟨h0, by omega⟩]
          rw [json_to_val.eq_def]
          simp only [hu]
        · rw [show val_to_json (.u16 (x.toNat % 65536)) = .num x from by
            rw [val_to_json]
            congr 1
            omega]
          exact .num x
      | null => rw [jsonConforms.eq_def] at hc; exact Bool.noConfusion hc
      | bool x => rw [jsonConforms.eq_def] at hc; exact Bool.noConfusion hc
      | str x => rw [jsonConforms.eq_def] at hc; exact Bool.noConfusion hc
      | arr x => rw [jsonConforms.eq_def] at hc; exact Bool.noConfusion hc
      | obj x => rw [jsonConforms.eq_def] at hc; exact Bool.noConfusion hc
    | u32 =>
      cases j with
      | num x =>
        rw [jsonConforms.eq_def] at hc
        obtain ⟨h0, h1⟩ := of_decide_eq_true hc
        refine ⟨.u32 (x.toNat % 4294967296), ?_, ?_⟩
        · have hu : jsonAsU64 x = some x.toNat := by
            unfold jsonAsU64
            rw [if_pos ⟨h0, by omega⟩]
          rw [json_to_val.eq_def]
          simp only [hu]
        · rw [show val_to_json (.u32 (x.toNat % 4294967296)) = .num x from by
            rw [val_to_json]
            congr 1
            omega]
          exact .num x
      | null => rw [jsonConforms.eq_def] at hc; exact Bool.noConfusion hc
      | bool x => rw [jsonConforms.eq_def] at hc; exact Bool.noConfusion hc
      | str x => rw [jsonConforms.eq_def] at hc; exact Bool.noConfusion hc
      | arr x => rw [jsonConforms.eq_def] at hc; exact Bool.noConfusion hc
      | obj x => rw [jsonConforms.eq_def] at hc; exact Bool.noConfusion hc
    | u64 =>
      cases j with
      | num x =>
        rw [jsonConforms.eq_def] at hc
        obtain ⟨h0, h1⟩ := of_decide_eq_true hc
        refine ⟨.u64 x.toNat, ?_, ?_⟩
        · have hu : jsonAsU64 x = some x.toNat := by
            unfold jsonAsU64
            rw [if_pos ⟨h0, h1⟩]
          rw [json_to_val.eq_def]
          simp only [hu]
        · rw [show val_to_json (.u64 x.toNat) = .num x from by
            rw [val_to_json]
            congr 1
            omega]
          exact .num x
      | null => rw [jsonConforms.eq_def] at hc; exact Bool.noConfusion hc
      | bool x => rw [jsonConforms.eq_def] at hc; exact Bool.noConfusion hc
      | str x => rw [jsonConforms.eq_def] at hc; exact Bool.noConfusion hc
      | arr x => rw [jsonConforms.eq_def] at hc; exact Bool.noConfusion hc
      | obj x => rw [jsonConforms.eq_def] at hc; exact Bool.noConfusion hc
    | s8 =>
      cases j with
      | num x =>
        rw [jsonConforms.eq_def] at hc
        obtain ⟨h0, h1⟩ := of_decide_eq_true hc
        refine ⟨.s8 (toI8 x), ?_, ?_⟩
        · have hi : jsonAsI64 x = some x := by
            unfold jsonAsI64
            rw [if_pos ⟨by omega, by omega⟩]
          rw [json_to_val.eq_def]
          simp only [hi]
        · rw [show val_to_json (.s8 (toI8 x)) = .num x from by
            rw [val_to_json]
            congr 1
            exact toI8_eq_self x (by omega) (by omega)]
          exact .num x
      | null => rw [jsonConforms.eq_def] at hc; exact Bool.noConfusion hc
      | bool x => rw [jsonConforms.eq_def] at hc; exact Bool.noConfusion hc
      | str x => rw [jsonConforms.eq_def] at hc; exact Bool.noConfusion hc
      | arr x => rw [jsonConforms.eq_def] at hc; exact Bool.noConfusion hc
      | obj x => rw [jsonConforms.eq_def] at hc; exact Bool.noConfusion hc
    | s16 =>
      cases j with
      | num x =>
        rw [jsonConforms.eq_def] at hc
        obtain ⟨h0, h1⟩ := of_decide_eq_true hc
        refine ⟨.s16 (toI16 x), ?_, ?_⟩
        · have hi : jsonAsI64 x = some x := by
            unfold jsonAsI64
            rw [if_pos ⟨by omega, by omega⟩]
          rw [json_to_val.eq_def]
          simp only [hi]
        · rw [show val_to_json (.s16 (toI16 x)) = .num x from by
            rw [val_to_json]
            congr 1
            exact toI16_eq_self x (by omega) (by omega)]
          exact .num x
      | null => rw [jsonConforms.eq_def] at hc; exact Bool.noConfusion hc
      | bool x => rw [jsonConforms.eq_def] at hc; exact Bool.noConfusion hc
      | str x => rw [jsonConforms.eq_def] at hc; exact Bool.noConfusion hc
      | arr x => rw [jsonConforms.eq_def] at hc; exact Bool.noConfusion hc
      | obj x => rw [jsonConforms.eq_def] at hc; exact Bool.noConfusion hc
    | s32 =>
      cases j with
      | num x =>
        rw [jsonConforms.eq_def] at hc
        obtain ⟨h0, h1⟩ := of_decide_eq_true hc
        refine ⟨.s32 (toI32 x), ?_, ?_⟩
        · have hi : jsonAsI64 x = some x := by
            unfold jsonAsI64
            rw [if_pos ⟨by omega, by omega⟩]
          rw [json_to_val.eq_def]
          simp only [hi]
        · rw [show val_to_json (.s32 (toI32 x)) = .num x from by
            rw [val_to_json]
            congr 1
            exact toI32_eq_self x (by omega) (by omega)]
          exact .num x
      | null => rw [jsonConforms.eq_def] at hc; exact Bool.noConfusion hc
      | bool x => rw [jsonConforms.eq_def] at hc; exact Bool.noConfusion hc
      | str x => rw [jsonConforms.eq_def] at hc; exact Bool.noConfusion hc
      | arr x => rw [jsonConforms.eq_def] at hc; exact Bool.noConfusion hc
      | obj x => rw [jsonConforms.eq_def] at hc; exact Bool.noConfusion hc
    | s64 =>
      cases j with
      | num x =>
        rw [jsonConforms.eq_def] at hc
        obtain ⟨h0, h1⟩ := of_decide_eq_true hc
        refine ⟨.s64 x, ?_, ?_⟩
        · have hi : jsonAsI64 x = some x := by
            unfold jsonAsI64
            rw [if_pos ⟨h0, h1⟩]
          rw [json_to_val.eq_def]
          simp only [hi]
        · rw [show val_to_json (.s64 x) = .num x from by rw [val_to_json]]
          exact .num x
      | null => rw [jsonConforms.eq_def] at hc; exact Bool.noConfusion hc
      | bool x => rw [jsonConforms.eq_def] at hc; exact Bool.noConfusion hc
      | str x => rw [jsonConforms.eq_def] at hc; exact Bool.noConfusion hc
      | arr x => rw [jsonConforms.eq_def] at hc; exact Bool.noConfusion hc
      | obj x => rw [jsonConforms.eq_def] at hc; exact Bool.noConfusion hc
    | char =>
      cases j with
      | str s =>
        rw [jsonConforms.eq_def] at hc
        have hlen : s.length = 1 := by simpa using hc
        have hlist : s.toList.length = 1 := hlen
        obtain ⟨c, hc1⟩ : ∃ c, s.toList = [c] := by
          cases hl : s.toList with
          | nil => rw [hl] at hlist; simp at hlist
          | cons c rest =>
            rw [hl] at hlist
            have h0 : rest.length = 0 := by simpa using hlist
            have hrest : rest = [] := List.length_eq_zero.mp h0
            exact ⟨c, by rw [hrest]⟩
        refine ⟨.char c, ?_, ?_⟩
        · rw [json_to_val.eq_def]
          simp only [hc1]
        · rw [show val_to_json (.char c) = .str (String.mk [c]) from by
            rw [val_to_json]]
          rw [show String.mk [c] = s from by
            rw [← hc1]
            cases s
            rfl]
          exact .str s
      | null => rw [jsonConforms.eq_def] at hc; exact Bool.noConfusion hc
      | bool x => rw [jsonConforms.eq_def] at hc; exact Bool.noConfusion hc
      | num x => rw [jsonConforms.eq_def] at hc; exact Bool.noConfusion hc
      | arr x => rw [jsonConforms.eq_def] at hc; exact Bool.noConfusion hc
      | obj x => rw [jsonConforms.eq_def] at hc; exact Bool.noConfusion hc
    | list t1 =>
      cases j with
      | arr xs =>
        rw [jsonConforms.eq_def] at hc
        rw [tySupported.eq_def] at hs
        have hlt : sizeOf t1 < n := by
          simp only [Ty.list.sizeOf_spec] at ht
          omega
        have key : ∀ (ys : List Json) (i : Nat), listConforms ys t1 = true →
            ∃ vs, jsonListToVals ys t1 i = .ok vs ∧ vs.length = ys.length ∧
              ∀ p ∈ (vs.map val_to_json).zip ys, JsonEquiv p.1 p.2 := by
          intro ys
          induction ys with
          | nil =>
            intro i _
            refine ⟨[], by rw [jsonListToVals], rfl, ?_⟩
            intro p hp
            simp at hp
          | cons y rest ihy =>
            intro i hcl
            rw [listConforms.eq_def] at hcl
            obtain ⟨hy, hrest⟩ := and_true_split hcl
            obtain ⟨v, hv, he⟩ := ih (sizeOf t1) hlt t1 le_rfl y hs hy
            obtain ⟨vs, hvs, hlen, hall⟩ := ihy (i + 1) hrest
            refine ⟨v :: vs, ?_, by simp [hlen], ?_⟩
            · rw [jsonListToVals.eq_def]
              simp only [hv, hvs]
            · intro p hp
              simp only [List.map_cons, List.zip_cons_cons, List.mem_cons] at hp
              rcases hp with hp | hp
              · rw [hp]
                exact he
              · exact hall p hp
        obtain ⟨vs, hvs, hlen, hall⟩ := key xs 0 hc
        refine ⟨.list vs, ?_, ?_⟩
        · rw [json_to_val.eq_def]
          simp only [hvs]
        · rw [show val_to_json (.list vs) = .arr (valsToJson vs) from by
            rw [val_to_json]]
          rw [valsToJson_eq_map]
          exact .arr _ _ (by simp [hlen]) hall
      | null => rw [jsonConforms.eq_def] at hc; exact Bool.noConfusion hc
      | bool x => rw [jsonConforms.eq_def] at hc; exact Bool.noConfusion hc
      | num x => rw [jsonConforms.eq_def] at hc; exact Bool.noConfusion hc
      | str x => rw [jsonConforms.eq_def] at hc; exact Bool.noConfusion hc
      | obj x => rw [jsonConforms.eq_def] at hc; exact Bool.noConfusion hc
    | record fields =>
      cases j with
      | obj kvs =>
        rw [jsonConforms.eq_def] at hc
        rw [tySupported.eq_def] at hs
        obtain ⟨hnd_f, hfsup⟩ := and_true_split hs
        have hnd_fields : (fields.map (fun f => f.1)).Nodup := of_decide_eq_true hnd_f
        obtain ⟨hc12, hextra⟩ := and_true_split hc
        obtain ⟨hnd_k, hrc⟩ := and_true_split hc12
        have hnd_kvs : (kvs.map (fun kv => kv.1)).Nodup := of_decide_eq_true hnd_k
        have hflds : sizeOf fields < n := by
          simp only [Ty.record.sizeOf_spec] at ht
          omega
        have key : ∀ (fl : List (String × Ty)), sizeOf fl ≤ sizeOf fields →
            fieldTysSupported fl = true → recordConforms kvs fl = true →
            ∃ fs, jsonRecordToVals kvs fl = .ok fs ∧
              fs.map (fun p => p.1) = fl.map (fun p => p.1) ∧
              ∀ k v, (k, v) ∈ fs → ∃ jv, lookupAssoc kvs k = some jv ∧
                JsonEquiv (val_to_json v) jv := by
          intro fl
          induction fl with
          | nil =>
            intro _ _ _
            refine ⟨[], by rw [jsonRecordToVals], rfl, ?_⟩
            intro k v hv
            simp at hv
          | cons hd rest ihf =>
            obtain ⟨fname, fty⟩ := hd
            intro hsz hsup hrc2
            rw [fieldTysSupported.eq_def] at hsup
            obtain ⟨hsup1, hsup2⟩ := and_true_split hsup
            rw [recordConforms.eq_def] at hrc2
            obtain ⟨hfind, hrest⟩ := and_true_split hrc2
            cases hjv : lookupAssoc kvs fname with
            | none =>
              rw [hjv] at hfind
              exact Bool.noConfusion hfind
            | some jv =>
              rw [hjv] at hfind
              have hfty_size : sizeOf fty < n := by
                simp only [List.cons.sizeOf_spec, Prod.mk.sizeOf_spec] at hsz
                omega
              obtain ⟨v, hv, he⟩ := ih (sizeOf fty) hfty_size fty le_rfl jv hsup1 hfind
              have hsz2 : sizeOf rest ≤ sizeOf fields := by
                simp only [List.cons.sizeOf_spec] at hsz
                omega
              obtain ⟨fs, hfs, hkeys, hmem⟩ := ihf hsz2 hsup2 hrest
              refine ⟨(fname, v) :: fs, ?_, by simp [hkeys], ?_⟩
              · rw [jsonRecordToVals_cons_found kvs fname fty rest jv hjv]
                simp only [hv, hfs]
              · intro k v2 hv2
                rcases List.mem_cons.mp hv2 with h1 | h1
                · have hk : k = fname := congrArg Prod.fst h1
                  have hv2v : v2 = v := congrArg Prod.snd h1
                  subst hk
                  subst hv2v
                  exact ⟨jv, hjv, he⟩
                · exact hmem k v2 h1
        obtain ⟨fs, hfs, hkeys, hmem⟩ := key fields le_rfl hfsup hrc
        have hext : firstUnexpectedKey kvs fields = none := by
          apply firstUnexpectedKey_eq_none
          intro kv hkv
          have := List.all_eq_true.mp hextra kv hkv
          simpa using this
        refine ⟨.record fs, ?_, ?_⟩
        · rw [json_to_val.eq_def]
          simp only [hfs, hext]
        · rw [show val_to_json (.record fs)
            = .obj (objOfPairs (valFieldsToJson fs)) from by rw [val_to_json]]
          rw [valFieldsToJson_eq_map]
          have hmapkeys : (fs.map (fun p => (p.1, val_to_json p.2))).map
              (fun p => p.1) = fs.map (fun p => p.1) := by
            rw [List.map_map]
            rfl
          have hfs_keys_nodup : ((fs.map (fun p => (p.1, val_to_json p.2))).map
              (fun p => p.1)).Nodup := by
            rw [hmapkeys, hkeys]
            exact hnd_fields
          rw [objOfPairs_nodup _ hfs_keys_nodup]
          refine JsonEquiv.obj _ _ ?_ ?_
          · intro k
            constructor
            · rintro ⟨v2, hv2⟩
              obtain ⟨⟨k0, v0⟩, hmem0, heq0⟩ := List.mem_map.mp hv2
              have hk0 : k0 = k := congrArg Prod.fst heq0
              subst hk0
              obtain ⟨jv, hjv, _⟩ := hmem k0 v0 hmem0
              exact ⟨jv, lookupAssoc_mem hjv⟩
            · rintro ⟨w, hw⟩
              have hany := List.all_eq_true.mp hextra (k, w) hw
              have hany2 : (fields.any fun f => f.1 == k) = true := by
                simpa using hany
              obtain ⟨f, hf, hfeq⟩ := List.any_eq_true.mp hany2
              have hk_in : k ∈ fields.map (fun f => f.1) :=
                List.mem_map.mpr ⟨f, hf, by simpa using hfeq⟩
              rw [← hkeys] at hk_in
              obtain ⟨⟨k0, v0⟩, hmem0, hk0⟩ := List.mem_map.mp hk_in
              refine ⟨val_to_json v0, List.mem_map.mpr ⟨(k0, v0), hmem0, ?_⟩⟩
              simp only at hk0
              rw [hk0]
          · intro k v2 w hv2 hw
            obtain ⟨⟨k0, v0⟩, hmem0, heq0⟩ := List.mem_map.mp hv2
            have hk0 : k0 = k := congrArg Prod.fst heq0
            have hv0 : val_to_json v0 = v2 := congrArg Prod.snd heq0
            subst hk0
            obtain ⟨jv, hjv, he0⟩ := hmem k0 v0 hmem0
            have hw2 : lookupAssoc kvs k0 = some w :=
              lookupAssoc_of_mem_nodup hnd_kvs hw
            rw [hjv] at hw2
            have hjw : jv = w := by injection hw2
            subst hjw
            rw [← hv0]
            exact he0
      | null => rw [jsonConforms.eq_def] at hc; exact Bool.noConfusion hc
      | bool x => rw [jsonConforms.eq_def] at hc; exact Bool.noConfusion hc
      | num x => rw [jsonConforms.eq_def] at hc; exact Bool.noConfusion hc
      | str x => rw [jsonConforms.eq_def] at hc; exact Bool.noConfusion hc
      | arr x => rw [jsonConforms.eq_def] at hc; exact Bool.noConfusion hc
    | tuple ts =>
      cases j with
      | arr xs =>
        rw [jsonConforms.eq_def] at hc
        rw [tySupported.eq_def] at hs
        obtain ⟨hlen0, htc⟩ := and_true_split hc
        have hlen0' : xs.length = ts.length := by simpa using hlen0
        have hts : sizeOf ts < n := by
          simp only [Ty.tuple.sizeOf_spec] at ht
          omega
        have key : ∀ (ys : List Json) (us : List Ty) (i : Nat),
            sizeOf us ≤ sizeOf ts → tysSupported us = true →
            tupleConforms ys us = true →
            ∃ vs, jsonTupleToVals ys us i = .ok vs ∧ vs.length = ys.length ∧
              ∀ p ∈ (vs.map val_to_json).zip ys, JsonEquiv p.1 p.2 := by
          intro ys
          induction ys with
          | nil =>
            intro us i hsz hsup htc2
            cases us with
            | nil =>
              refine ⟨[], by rw [jsonTupleToVals], rfl, ?_⟩
              intro p hp
              simp at hp
            | cons u ur =>
              rw [tupleConforms.eq_def] at htc2
              exact Bool.noConfusion htc2
          | cons y yr ihy =>
            intro us i hsz hsup htc2
            cases us with
            | nil =>
              rw [tupleConforms.eq_def] at htc2
              exact Bool.noConfusion htc2
            | cons u ur =>
              rw [tupleConforms.eq_def] at htc2
              obtain ⟨hy, hrest⟩ := and_true_split htc2
              rw [tysSupported.eq_def] at hsup
              obtain ⟨hu, hur⟩ := and_true_split hsup
              have hu_size : sizeOf u < n := by
                simp only [List.cons.sizeOf_spec] at hsz
                omega
              obtain ⟨v, hv, he⟩ := ih (sizeOf u) hu_size u le_rfl y hu hy
              have hsz2 : sizeOf ur ≤ sizeOf ts := by
                simp only [List.cons.sizeOf_spec] at hsz
                omega
              obtain ⟨vs, hvs, hlen, hall⟩ := ihy ur (i + 1) hsz2 hur hrest
              refine ⟨v :: vs, ?_, by simp [hlen], ?_⟩
              · rw [jsonTupleToVals.eq_def]
                simp only [hv, hvs]
              · intro p hp
                simp only [List.map_cons, List.zip_cons_cons, List.mem_cons] at hp
                rcases hp with hp | hp
                · rw [hp]
                  exact he
                · exact hall p hp
        obtain ⟨vs, hvs, hlen, hall⟩ := key xs ts 0 le_rfl hs htc
        refine ⟨.tuple vs, ?_, ?_⟩
        · rw [json_to_val.eq_def]
          show (if xs.length ≠ ts.length then
              Except.error ("Tuple length mismatch: expected "
                ++ toString ts.length ++ ", got " ++ toString xs.length ++ "")
            else
              match jsonTupleToVals xs ts 0 with
              | .ok vs2 => Except.ok (Val.tuple vs2)
              | .error e => Except.error e) = _
          rw [if_neg (fun h => h hlen0')]
          simp only [hvs]
        · rw [show val_to_json (.tuple vs) = .arr (valsToJson vs) from by
            rw [val_to_json]]
          rw [valsToJson_eq_map]
          exact .arr _ _ (by simp [hlen]) hall
      | null => rw [jsonConforms.eq_def] at hc; exact Bool.noConfusion hc
      | bool x => rw [jsonConforms.eq_def] at hc; exact Bool.noConfusion hc
      | num x => rw [jsonConforms.eq_def] at hc; exact Bool.noConfusion hc
      | str x => rw [jsonConforms.eq_def] at hc; exact Bool.noConfusion hc
      | obj x => rw [jsonConforms.eq_def] at hc; exact Bool.noConfusion hc
    | option t1 =>
      have ht1 : sizeOf t1 < n := by
        simp only [Ty.option.sizeOf_spec] at ht
        omega
      rw [tySupported.eq_def] at hs
      cases j with
      | null =>
        refine ⟨.option none, by rw [json_to_val.eq_def], ?_⟩
        rw [show val_to_json (.option none) = .null from by rw [val_to_json]]
        exact .null
      | bool b =>
        rw [jsonConforms.eq_def] at hc
        obtain ⟨v, hv, he⟩ := ih (sizeOf t1) ht1 t1 le_rfl (Json.bool b) hs hc
        refine ⟨.option (some v), ?_, ?_⟩
        · rw [json_to_val.eq_def]
          simp only [hv]
        · rw [show val_to_json (.option (some v)) = val_to_json v from by
            rw [val_to_json]]
          exact he
      | num x =>
        rw [jsonConforms.eq_def] at hc
        obtain ⟨v, hv, he⟩ := ih (sizeOf t1) ht1 t1 le_rfl (Json.num x) hs hc
        refine ⟨.option (some v), ?_, ?_⟩
        · rw [json_to_val.eq_def]
          simp only [hv]
        · rw [show val_to_json (.option (some v)) = val_to_json v from by
            rw [val_to_json]]
          exact he
      | str s2 =>
        rw [jsonConforms.eq_def] at hc
        obtain ⟨v, hv, he⟩ := ih (sizeOf t1) ht1 t1 le_rfl (Json.str s2) hs hc
        refine ⟨.option (some v), ?_, ?_⟩
        · rw [json_to_val.eq_def]
          simp only [hv]
        · rw [show val_to_json (.option (some v)) = val_to_json v from by
            rw [val_to_json]]
          exact he
      | arr xs =>
        rw [jsonConforms.eq_def] at hc
        obtain ⟨v, hv, he⟩ := ih (sizeOf t1) ht1 t1 le_rfl (Json.arr xs) hs hc
        refine ⟨.option (some v), ?_, ?_⟩
        · rw [json_to_val.eq_def]
          simp only [hv]
        · rw [show val_to_json (.option (some v)) = val_to_json v from by
            rw [val_to_json]]
          exact he
      | obj kvs =>
        rw [jsonConforms.eq_def] at hc
        obtain ⟨v, hv, he⟩ := ih (sizeOf t1) ht1 t1 le_rfl (Json.obj kvs) hs hc
        refine ⟨.option (some v), ?_, ?_⟩
        · rw [json_to_val.eq_def]
          simp only [hv]
        · rw [show val_to_json (.option (some v)) = val_to_json v from by
            rw [val_to_json]]
          exact he

/-- C2 as amended: for the WIT value shapes whose JSON-to-native conversion
json_to_val actually implements — bool, the integer types, char, string,
list, record, tuple, and option (floats are out of scope, and variant,
enum, result, and flags have no conversion arm) — a JSON value conforming
to the shape's schema converts successfully, and converting the native
value back with val_to_json yields a schema-equivalent JSON value (numeric
identity, same key sets, array order preserved); for variant, enum,
result, and flags, json_to_val fails on every JSON input. -/
theorem c2_roundtrip :
    (∀ (t : Ty) (j : Json), tySupported t = true → jsonConforms j t = true →
      ∃ v, json_to_val j t = .ok v ∧ JsonEquiv (val_to_json v) j) ∧
    (∀ t, tyRejectedTop t = true → ∀ j, ∃ e, json_to_val j t = .error e) := by
  constructor
  · intro t j hs hc
    exact roundtrip_gen (sizeOf t) t le_rfl j hs hc
  · intro t hr j
    cases t <;>
      first
      | exact Bool.noConfusion hr
      | (cases j <;> exact ⟨_, by rw [json_to_val.eq_def]⟩)

/-- Concrete witness for C2: the list-of-u8 value [7] round-trips, and the
enum type rejects the very string its schema accepts. -/
theorem c2_roundtrip_witness :
    (∃ v, json_to_val (Json.arr [Json.num 7]) (Ty.list Ty.u8) = Except.ok v ∧
       JsonEquiv (val_to_json v) (Json.arr [Json.num 7])) ∧
    (∃ e, json_to_val (Json.str "go") (Ty.enum ["go"]) = Except.error e) :=
  ⟨c2_roundtrip.1 (Ty.list Ty.u8) (Json.arr [Json.num 7])
      (by simp only [tySupported.eq_def])
      (by simp only [jsonConforms.eq_def, listConforms.eq_def]; decide),
   c2_roundtrip.2 (Ty.enum ["go"]) rfl (Json.str "go")⟩

end Toolbelt
